import Mathlib

/-!
# HesabPak — shallow embedding and verification of spec claims

This file embeds, in Lean 4, the parts of the HesabPak bookkeeping
application (a Python/Flask code base) that the frozen claims C1–C10 talk
about, and settles each claim against the embedding.

Modelling conventions, used throughout:

* Python `float` amounts (quantities, unit prices, balances, totals) are
  modelled as exact rationals `ℚ`.  No claim in scope depends on IEEE-754
  rounding; the `1e-6` epsilon of the stock check becomes `1/1000000`.
* Python `//` and `%` (floor division / sign-of-divisor modulus) are
  modelled by `Int.fdiv` and `Int.fmod`.
* Database tables are lists of records; SQLAlchemy's `query.get(pk)` is a
  `find?` on the primary-key field, `query.filter_by(...).first()` is a
  `find?` with the corresponding predicate, `session.add` is an append,
  and a committed request maps the pre-state to the post-state.  Routes
  that `flash` an error and redirect before any `session.add`/mutation are
  modelled as returning the untouched pre-state together with an error
  outcome (Persian flash texts are abbreviated to short ASCII tags; the
  texts themselves are irrelevant to every claim).
* `sha256` and `HMAC-SHA256` are abstracted as explicit function
  arguments (`H : String → String`, `hmacHex : String → String → String`):
  every claim about the two hash-chained ledgers is a statement about the
  bookkeeping around the hash function (what gets hashed, how rows are
  linked, what re-verification recomputes), not about the compression
  function itself, so the theorems are proved for an arbitrary hash.
* `json.dumps(payload, sort_keys=True)` produces a deterministic text for
  a given payload; payloads enter the models already serialized
  (`payload_text : String`), which is faithful because both writers and
  verifiers in the source serialize with the same deterministic options.
-/

namespace HesabPak

/-! ## §1 Date utilities (`src/utils/date_utils.py`) -/

/-- The cumulative-days table `g_d_m` of `g2j`. -/
def g_d_m : List Int := [0, 31, 59, 90, 120, 151, 181, 212, 243, 273, 304, 334]

/-- Function `g2j(gy, gm, gd)` from `src/utils/date_utils.py`: Gregorian to
Jalali conversion.  Python's `gm > 2 and (gy + 1) or gy` idiom is embedded with its
exact truthiness semantics (`gy + 1` falsy means `gy + 1 = 0`).  The list
index `g_d_m[gm - 1]` is taken at `(gm - 1).toNat`; callers always pass a
calendar month `1 ≤ gm ≤ 12`, where this agrees with Python indexing. -/
def g2j (gy0 gm gd : Int) : Int × Int × Int :=
  let jy0 : Int := if gy0 > 1600 then 979 else 0
  let gy : Int := if gy0 > 1600 then gy0 - 1600 else gy0 - 621
  let gy2 : Int := if gm > 2 then (if gy + 1 = 0 then gy else gy + 1) else gy
  let days : Int :=
    365 * gy + (gy2 + 3).fdiv 4 - (gy2 + 99).fdiv 100 + (gy2 + 399).fdiv 400
      - 80 + gd + g_d_m.getD (gm - 1).toNat 0
  let jy1 : Int := jy0 + 33 * (days.fdiv 12053)
  let days1 : Int := days.fmod 12053
  let jy2 : Int := jy1 + 4 * (days1.fdiv 1461)
  let days2 : Int := days1.fmod 1461
  let jy3 : Int := if days2 > 365 then jy2 + (days2 - 1).fdiv 365 else jy2
  let days3 : Int := if days2 > 365 then (days2 - 1).fmod 365 else days2
  if days3 < 186 then
    (jy3, 1 + days3.fdiv 31, 1 + days3.fmod 31)
  else
    (jy3, 7 + (days3 - 186).fdiv 30, 1 + (days3 - 186).fmod 30)

/-- A run of `n` zero characters, helper for Python's `0`-fill formatting. -/
def zeroFill (n : Nat) : String := String.mk (List.replicate n '0')

/-- Python fixed-width zero-padded integer formatting, `format(v, "0Nd")` for
width `N`: the sign, when present, counts toward the width and precedes the
zero fill. -/
def pyFmt0d (width : Nat) (v : Int) : String :=
  if v < 0 then
    let ds := toString v.natAbs
    "-" ++ zeroFill (width - 1 - ds.length) ++ ds
  else
    let ds := toString v.toNat
    zeroFill (width - ds.length) ++ ds

/-- A value reaching `to_jdate_str` from a template: either a
`date`/`datetime` (only the Gregorian year/month/day parts are consumed) or
any other object, represented by its textual identity. -/
inductive PyValue where
  | date (y m d : Int)
  | text (s : String)
deriving DecidableEq, Repr

/-- Function `to_jdate_str(d, sep)` from `src/utils/date_utils.py`: a
`date`/`datetime` is converted through `to_jdate_parts`/`g2j` and formatted
as zero-padded `YYYY{sep}MM{sep}DD`; any other input is returned unchanged
(defensive passthrough). -/
def to_jdate_str (v : PyValue) (sep : String) : PyValue :=
  match v with
  | .date y m d =>
      let j := g2j y m d
      .text (pyFmt0d 4 j.1 ++ sep ++ pyFmt0d 2 j.2.1 ++ sep ++ pyFmt0d 2 j.2.2)
  | .text s => .text s

/-! ## §2 In-process SQL-table ledger (`src/app.py`, `LedgerEntry`,
`_compute_entry_hash`, `record_ledger`) -/

/-- A row of the `ledger_entries` table.  `created_at` carries the value of
the column's own `default=datetime.utcnow` — a clock sample taken when the
row is flushed, in ISO form — and `payload` the
`json.dumps(payload, ensure_ascii=False, sort_keys=True)` text; both enter
the model as the strings the source would have produced. -/
structure LedgerRow where
  id : Nat
  created_at : String
  object_type : String
  object_id : Option String
  action : String
  payload : String
  prev_hash : Option String
  hash : String
deriving DecidableEq, Repr

/-- Function `_compute_entry_hash(prev_hash, payload_text, ts_iso)` from
`src/app.py`: sha256 over the concatenation
`(prev_hash or "") + ts_iso + payload_text` (three `update` calls hash the
concatenation).  `H` abstracts `sha256(...).hexdigest()`. -/
def compute_entry_hash (H : String → String)
    (prev_hash : Option String) (payload_text ts_iso : String) : String :=
  H ((prev_hash.getD "") ++ ts_iso ++ payload_text)

/-- One call's request data for `record_ledger`, including its two clock
samples: `ts` is the `datetime.utcnow().isoformat()` string the function
captures and hashes, and `created_at` the later `datetime.utcnow` sample
the column default takes when the row is flushed.  The source never stores
`ts`, and nothing makes the two samples equal. -/
structure LedgerCall where
  object_type : String
  object_id : Option String
  action : String
  ts : String
  created_at : String
  payload_text : String
deriving DecidableEq, Repr

/-- Function `record_ledger(object_type, object_id, action, payload)` from
`src/app.py`, acting on the `ledger_entries` table (rows listed in
insertion order, so the last element is the row with the greatest `id` that
the `ORDER BY id DESC LIMIT 1` query returns): reads the previous row's
hash, computes the entry hash over the captured (unstored) `ts` sample,
and appends the committed new row, whose `created_at` column is filled by
its default from the second clock sample.  The
stray try-guarded block inside the source function that mentions
`rows`/`inv`/`person` raises a `NameError` on its first statement, is
swallowed by its own `except Exception` logger, and has no state effect, so
it does not appear in the state transition. -/
def record_ledger (H : String → String) (table : List LedgerRow)
    (c : LedgerCall) : List LedgerRow :=
  let prev : Option String := (table.getLast?).map (·.hash)
  let h := compute_entry_hash H prev c.payload_text c.ts
  table ++ [{ id := table.length + 1, created_at := c.created_at,
              object_type := c.object_type, object_id := c.object_id,
              action := c.action, payload := c.payload_text,
              prev_hash := prev, hash := h }]

/-- The table produced by a sequence of `record_ledger` calls starting from
an empty `ledger_entries` table. -/
def runLedger (H : String → String) (calls : List LedgerCall) : List LedgerRow :=
  calls.foldl (record_ledger H) []

/-- The prev-hash linkage half of C6: each row's `prev_hash` is the
previous row's `hash` (`none` for the first row). -/
def chainPrevLinked (table : List LedgerRow) : Prop :=
  ∀ k : Fin table.length,
    (table.get k).prev_hash =
      if (k : Nat) = 0 then none
      else some ((table.get ⟨k - 1,
        lt_of_le_of_lt (Nat.pred_le _) k.isLt⟩).hash)

/-- The full invariant C6 claims for a `ledger_entries` table: each row's
`prev_hash` is the previous row's `hash` (`none` for the first row), and
each row's stored `hash` is reproduced by recomputing
`_compute_entry_hash` from its own `(prev_hash, payload, created_at)`.
The second half is the claim's words: the source hashes the unstored `ts`
sample, not the row's `created_at`. -/
def chainLinked (H : String → String) (table : List LedgerRow) : Prop :=
  ∀ k : Fin table.length,
    ((table.get k).prev_hash =
      if (k : Nat) = 0 then none
      else some ((table.get ⟨k - 1, lt_of_le_of_lt (Nat.pred_le _) k.isLt⟩).hash)) ∧
    (table.get k).hash =
      compute_entry_hash H (table.get k).prev_hash (table.get k).payload
        (table.get k).created_at

/-! ## §3 Standalone file-based ledger (`src/utils/ledger.py`) -/

/-- A block of `data/chain.json`.  `dataText` stands for the block's `data`
object through its deterministic `json.dumps(..., sort_keys=True)` image
(the writer and `verify_chain` serialize the same object with the same
options; the genesis block's data is pure ASCII, so the genesis writer's
`ensure_ascii` default produces the same text as the verifier's
`ensure_ascii=False`). -/
structure Block where
  index : Nat
  ts : String
  prev_hash : String
  dataText : String
  hash : String
  sig : String
deriving DecidableEq, Repr

/-- The constant `"0" * 64` genesis back-link. -/
def zero64 : String := zeroFill 64

/-- The serialized genesis data dict of `Ledger._init_chain`, event
"genesis" with the fixed note, keys in sorted order as `json.dumps` with
`sort_keys=True` emits them. -/
def genesisDataText : String :=
  "\x7b\"event\": \"genesis\", \"note\": \"Hesab Pak local ledger\"\x7d"

/-- Method `Ledger._init_chain` from `src/utils/ledger.py`: the freshly
written chain holding only the genesis block, whose hash is
`sha256(dumps(data) + prev_hash + ts)` with `prev_hash = "0" * 64`, and
whose signature is `HMAC-SHA256(secret, hash)` stored under `sig`. -/
def init_chain (H : String → String) (hmacHex : String → String → String)
    (secret ts : String) : List Block :=
  let h := H (genesisDataText ++ zero64 ++ ts)
  [{ index := 0, ts := ts, prev_hash := zero64, dataText := genesisDataText,
     hash := h, sig := hmacHex secret h }]

/-- One `append_event` call: the serialized `{"event": ..., "payload": ...}`
data text and the timestamp taken at call time. -/
structure AppendCall where
  dataText : String
  ts : String
deriving DecidableEq, Repr

/-- Method `Ledger.append_event` from `src/utils/ledger.py`: links to the last
block's hash (or `"0" * 64` on an empty chain), hashes
`raw + prev_hash + ts`, signs the hash, and appends the block. -/
def append_event (H : String → String) (hmacHex : String → String → String)
    (secret : String) (chain : List Block) (c : AppendCall) : List Block :=
  let last := chain.getLast?
  let prev : String := match last with | some b => b.hash | none => zero64
  let idx : Nat := match last with | some b => b.index + 1 | none => 1
  let h := H (c.dataText ++ prev ++ c.ts)
  chain ++ [{ index := idx, ts := c.ts, prev_hash := prev, dataText := c.dataText,
              hash := h, sig := hmacHex secret h }]

/-- The recursive body of `Ledger.verify_chain`: walk the stored chain with
a running `prev_hash` (starting at `"0" * 64`), recompute each block's hash
and signature, and compare with the stored values; chain the *stored* hash
forward. -/
def verifyFrom (H : String → String) (hmacHex : String → String → String)
    (secret : String) (prev : String) : List Block → Bool
  | [] => true
  | blk :: rest =>
      let expected := H (blk.dataText ++ prev ++ blk.ts)
      if blk.hash ≠ expected then false
      else if blk.sig ≠ hmacHex secret expected then false
      else verifyFrom H hmacHex secret blk.hash rest

/-- Method `Ledger.verify_chain` from `src/utils/ledger.py`. -/
def verify_chain (H : String → String) (hmacHex : String → String → String)
    (secret : String) (chain : List Block) : Bool :=
  verifyFrom H hmacHex secret zero64 chain

/-- A fresh ledger followed by a finite sequence of `append_event` calls. -/
def runFileLedger (H : String → String) (hmacHex : String → String → String)
    (secret ts0 : String) (calls : List AppendCall) : List Block :=
  calls.foldl (append_event H hmacHex secret) (init_chain H hmacHex secret ts0)

/-- The hash the next appended block links to: the last block's stored hash,
or the seed value when the chain is empty. -/
def lastHash (p : String) : List Block → String
  | [] => p
  | b :: rest => lastHash b.hash rest

/-- A concrete stand-in hash function used by witnesses (the chain theorems
hold for an arbitrary hash function). -/
def constHash : String → String := fun _ => "digest"

/-- A concrete stand-in HMAC function used by witnesses. -/
def constHmac : String → String → String := fun _ _ => "mac"

/-! ## §4 Domain model (`src/app.py` ORM classes)

Fields that no claim reads (free-text units, serial numbers, parent
references, levels, all timestamp columns, invoice dates) are omitted;
calendar dates that are merely stored are carried as opaque strings. -/

/-- The `entities` table: persons and items unified by a `type` column.
`stock_qty` is meaningful for items, `balance` for persons; both are
non-nullable with default `0.0`. -/
structure Entity where
  id : Nat
  etype : String
  code : String
  name : String
  stock_qty : ℚ
  balance : ℚ
deriving DecidableEq, Repr

/-- The `invoices` table header row. -/
structure Invoice where
  id : Nat
  number : String
  person_id : Nat
  kind : String
  discount : ℚ
  tax : ℚ
  total : ℚ
deriving DecidableEq, Repr

/-- The `invoice_lines` table row. -/
structure InvoiceLine where
  invoice_id : Nat
  item_id : Nat
  qty : ℚ
  unit_price : ℚ
  line_total : ℚ
deriving DecidableEq, Repr

/-- The `price_history` table row (unique on `(person_id, item_id)` in the
schema). -/
structure PriceHistory where
  person_id : Nat
  item_id : Nat
  last_price : ℚ
deriving DecidableEq, Repr

/-- The `cash_boxes` table row. -/
structure CashBox where
  id : Nat
  name : String
  kind : String
  is_active : Bool
deriving DecidableEq, Repr

/-- The `cash_docs` table row; the due date is carried opaquely. -/
structure CashDoc where
  id : Nat
  doc_type : String
  number : String
  person_id : Nat
  amount : ℚ
  method : String
  note : Option String
  cashbox_id : Option Nat
  cheque_number : Option String
  cheque_bank : Option String
  cheque_branch : Option String
  cheque_account : Option String
  cheque_owner : Option String
  cheque_due_date : Option String
deriving DecidableEq, Repr

/-- The application database state: one list per table touched by the
claims, in insertion order. -/
structure DBState where
  entities : List Entity
  invoices : List Invoice
  invoice_lines : List InvoiceLine
  price_history : List PriceHistory
  cashboxes : List CashBox
  cash_docs : List CashDoc
  ledger : List LedgerRow
deriving DecidableEq, Repr

/-- Python `str.isdigit()` on the ASCII digits the routes deal in. -/
def isDigits (s : String) : Bool := s ≠ "" && s.data.all Char.isDigit

/-- Python `str.strip()` (whitespace strip on both ends). -/
def pyStrip (s : String) : String :=
  String.mk (((s.data.dropWhile Char.isWhitespace).reverse.dropWhile
    Char.isWhitespace).reverse)

/-- Python `str.lower()` on the ASCII route keywords. -/
def pyLower (s : String) : String := String.mk (s.data.map Char.toLower)

/-- Conversion `int(s)` for a string that passed `isdigit`. -/
def toNatD (s : String) : Nat := s.data.foldl (fun acc c => acc * 10 + (c.toNat - 48)) 0

/-- ORM `Entity.query.get(i)` on the model state. -/
def findEntity (db : DBState) (i : Nat) : Option Entity :=
  db.entities.find? (fun e => e.id == i)

/-- The epsilon tolerance `1e-6` of the sales stock check, exact. -/
def stockEps : ℚ := 1 / 1000000

/-! ## §5 Users and permissions (`src/app.py`) -/

/-- An authenticated user (all modelled routes sit behind
`login_required`). -/
structure User where
  username : String
  role : String
  permissions : List String
deriving DecidableEq, Repr

/-- Function `is_admin()` from `src/app.py` for the current user. -/
def is_admin (u : User) : Bool := u.role == "admin"

/-- Function `ensure_permission(perm)` from `src/app.py`, specialised to the
single-permission call sites of the unified routes, as a pass/abort
predicate: admins always pass; otherwise the (non-empty) permission must be
in the user's permission set. -/
def ensure_permission_allows (u : User) (perm : String) : Bool :=
  is_admin u || (perm != "" && u.permissions.contains perm)

/-! ## §6 Unified invoice route (`src/app.py`, `unified_invoice`) -/

/-- The query-parameter kind resolution at the top of `unified_invoice`:
`(request.args.get("kind") or "sales").strip().lower()`, constrained to
`sales`/`purchase` with default `sales`.  The route alias used to reach the
endpoint is not consulted. -/
def kindResolved (args_kind : Option String) : String :=
  let raw := match args_kind with
    | none => "sales"
    | some s => if s == "" then "sales" else s
  let k := pyLower (pyStrip raw)
  if k == "sales" || k == "purchase" then k else "sales"

/-- The POST-side kind: `(request.form.get("invoice_kind") or kind)`,
normalised, falling back to the query-derived kind when invalid. -/
def formKind (kind : String) (invoice_kind : Option String) : String :=
  let raw := match invoice_kind with
    | none => kind
    | some s => if s == "" then kind else s
  let fk := pyLower (pyStrip raw)
  if fk == "sales" || fk == "purchase" then fk else kind

/-- The claim-side resolution of C9, stated from the spec's words for
comparison with `kindResolved`: query parameter first, then the route
alias, then (on POST) the explicit form field, defaulting to sales. -/
def kindResolvedSpec (args_kind : Option String) (path : String)
    (invoice_kind : Option String) : String :=
  match args_kind with
  | some s => s
  | none =>
      if path == "/sales" then "sales"
      else if path == "/purchase" then "purchase"
      else match invoice_kind with
        | some s => s
        | none => "sales"

/-- The purchase-side generated invoice number of `unified_invoice`:
`max` of the purely-numeric purchase invoice numbers plus one, as a string,
or `"1"` when none exist. -/
def purchaseGeneratedNumber (db : DBState) : String :=
  let nums := db.invoices.filterMap (fun inv =>
    if inv.kind == "purchase" && isDigits (pyStrip inv.number)
    then some (toNatD (pyStrip inv.number)) else none)
  match nums with
  | [] => "1"
  | n :: rest => toString (rest.foldl max n + 1)

/-- Function `generate_invoice_number()` from `src/app.py`: last invoice by
id (the most recently inserted row), then `number + 1` when that number is
purely numeric else `id + 1`, zero-padded to eight digits. -/
def generate_invoice_number (db : DBState) : String :=
  match db.invoices.getLast? with
  | some inv =>
      if isDigits inv.number then pyFmt0d 8 (Int.ofNat (toNatD inv.number + 1))
      else pyFmt0d 8 (Int.ofNat (inv.id + 1))
  | none => pyFmt0d 8 1

/-- The shared person-resolution block of the unified invoice and cash
routes: a numeric `person_token` is looked up by id; only when that lookup
misses is a non-empty `person_code` tried against person entities; the
result must be of type person. -/
def resolvePerson (db : DBState) (person_token person_code : String) : Option Entity :=
  let byTok := if isDigits person_token then findEntity db (toNatD person_token) else none
  let found := match byTok with
    | some e => some e
    | none =>
        if person_code ≠ "" then
          db.entities.find? (fun e => e.etype == "person" && e.code == person_code)
        else none
  match found with
  | some e => if e.etype == "person" then some e else none
  | none => none

/-- One submitted row of the invoice form.  The four parallel form arrays
are pre-zipped to `min(len(item_id), len(unit_price), len(qty))` entries;
`unit_price` and `qty` carry the values after `_to_float(_, 0.0)`. -/
structure FormRow where
  item_id : String
  item_code : String
  unit_price : ℚ
  qty : ℚ
deriving DecidableEq, Repr

/-- The invoice POST form; `person_token` and `person_code` carry their
stripped values. -/
structure InvoiceForm where
  invoice_kind : Option String
  inv_number : Option String
  person_token : String
  person_code : String
  rows : List FormRow
deriving DecidableEq, Repr

/-- The number selection of `unified_invoice`'s POST branch: the stripped
submitted number when non-empty else the pre-generated one, replaced by
`generate_invoice_number()` on collision. -/
def manualInvoiceNumber (db : DBState) (gen : String) (form : InvoiceForm) : String :=
  let number0 := match form.inv_number with
    | none => gen
    | some s => if pyStrip s == "" then gen else pyStrip s
  if db.invoices.any (fun i => i.number == number0) then
    generate_invoice_number db
  else number0

/-- The per-row item lookup of the invoice loop: numeric `item_id[]` by
primary key, else non-empty `item_code[]` against item entities. -/
def lookupRowItem (db : DBState) (iid icode : String) : Option Entity :=
  let byId := if isDigits iid then findEntity db (toNatD iid) else none
  match byId with
  | some e => some e
  | none =>
      if icode ≠ "" then
        db.entities.find? (fun e => e.etype == "item" && e.code == icode)
      else none

/-- A validated invoice row: the resolved item entity plus its price and
quantity. -/
structure RowItem where
  item : Entity
  unit_price : ℚ
  qty : ℚ
deriving DecidableEq, Repr

/-- Read of the `pending_stock` dict with a default. -/
def lookupPending (pending : List (Nat × ℚ)) (i : Nat) (dflt : ℚ) : ℚ :=
  match pending.find? (fun kv => kv.1 == i) with
  | some kv => kv.2
  | none => dflt

/-- Write of the `pending_stock` dict. -/
def setPending (pending : List (Nat × ℚ)) (i : Nat) (v : ℚ) : List (Nat × ℚ) :=
  (i, v) :: pending.filter (fun kv => kv.1 ≠ i)

/-- The row-collection loop of `unified_invoice`'s POST branch: resolve
each submitted row, keep only rows whose entity is an item with positive
quantity and non-negative price, maintain the in-memory `pending_stock`
projection for sales, reject (for sales without the allow-negative setting)
any row that would drive the projected stock below `-1e-6`, and stop after
`MAX_ROWS = 15` accepted rows. -/
def processRows (db : DBState) (fk : String) (allowNeg : Bool) :
    List FormRow → List RowItem → List (Nat × ℚ) → Except String (List RowItem)
  | [], rows, _ => .ok rows
  | fr :: rest, rows, pending =>
      match lookupRowItem db fr.item_id fr.item_code with
      | some item =>
          if item.etype == "item" ∧ fr.qty > 0 ∧ fr.unit_price ≥ 0 then
            if fk == "sales" ∧ ¬allowNeg then
              let base := lookupPending pending item.id item.stock_qty
              if base - fr.qty < -stockEps then .error "insufficient-stock"
              else
                let pending' := setPending pending item.id (base - fr.qty)
                let rows' := rows ++ [⟨item, fr.unit_price, fr.qty⟩]
                if rows'.length ≥ 15 then .ok rows'
                else processRows db fk allowNeg rest rows' pending'
            else if fk == "sales" then
              let cur := lookupPending pending item.id item.stock_qty
              let pending' := setPending pending item.id (cur - fr.qty)
              let rows' := rows ++ [⟨item, fr.unit_price, fr.qty⟩]
              if rows'.length ≥ 15 then .ok rows'
              else processRows db fk allowNeg rest rows' pending'
            else
              let rows' := rows ++ [⟨item, fr.unit_price, fr.qty⟩]
              if rows'.length ≥ 15 then .ok rows'
              else processRows db fk allowNeg rest rows' pending
          else
            if rows.length ≥ 15 then .ok rows
            else processRows db fk allowNeg rest rows pending
      | none =>
          if rows.length ≥ 15 then .ok rows
          else processRows db fk allowNeg rest rows pending

/-- Update of the first entity with the given id (the ORM identity-mapped
object the route mutates; primary keys are unique in reachable states). -/
def updateFirstEntity : List Entity → Nat → (Entity → Entity) → List Entity
  | [], _, _ => []
  | e :: rest, i, f =>
      if e.id == i then f e :: rest else e :: updateFirstEntity rest i f

/-- In-place update of the first `price_history` row with the given key. -/
def setFirstPH : List PriceHistory → Nat → Nat → ℚ → List PriceHistory
  | [], _, _, _ => []
  | r :: rest, pid, iid, price =>
      if r.person_id == pid && r.item_id == iid then
        { r with last_price := price } :: rest
      else r :: setFirstPH rest pid iid price

/-- The per-line PriceHistory upsert of the invoice routes:
`filter_by(person_id, item_id).first()`, update `last_price` when found,
insert a fresh row otherwise. -/
def upsertPH (ph : List PriceHistory) (pid iid : Nat) (price : ℚ) : List PriceHistory :=
  if ph.any (fun r => r.person_id == pid && r.item_id == iid) then
    setFirstPH ph pid iid price
  else
    ph ++ [{ person_id := pid, item_id := iid, last_price := price }]

/-- Autoincrement primary key for a fresh invoice row. -/
def nextInvoiceId (db : DBState) : Nat :=
  (db.invoices.map (·.id)).foldl max 0 + 1

/-- Autoincrement primary key for a fresh entity row. -/
def nextEntityId (db : DBState) : Nat :=
  (db.entities.map (·.id)).foldl max 0 + 1

/-- Autoincrement primary key for a fresh cash-document row. -/
def nextCashDocId (db : DBState) : Nat :=
  (db.cash_docs.map (·.id)).foldl max 0 + 1

/-- The committed-line loop of `unified_invoice`'s POST branch: for each
accepted row append the `InvoiceLine`, move the item's real `stock_qty`
(sales decrement, purchase increment), and upsert the `(person, item)`
PriceHistory row to the line's unit price — the source performs this upsert
for both invoice kinds. -/
def commitRows (fk : String) (inv_id pid : Nat) :
    List RowItem → List Entity → List InvoiceLine → List PriceHistory →
    List Entity × List InvoiceLine × List PriceHistory
  | [], entities, lines, ph => (entities, lines, ph)
  | r :: rest, entities, lines, ph =>
      let line : InvoiceLine :=
        { invoice_id := inv_id, item_id := r.item.id, qty := r.qty,
          unit_price := r.unit_price, line_total := r.qty * r.unit_price }
      let entities' := updateFirstEntity entities r.item.id (fun e =>
        { e with stock_qty :=
            if fk == "sales" then e.stock_qty - r.qty else e.stock_qty + r.qty })
      let ph' := upsertPH ph pid r.item.id r.unit_price
      commitRows fk inv_id pid rest entities' (lines ++ [line]) ph'

/-- Outcome of a POST to the unified invoice route. -/
inductive InvOutcome where
  | forbidden
  | error (tag : String)
  | success (invoice_id : Nat)
deriving DecidableEq, Repr

/-- The POST handler of `unified_invoice` from `src/app.py`.  Inputs:
the authenticated user, the `kind` query parameter, the clock-derived
Jalali sales reference `jref` (the `jalali_reference("INV", now)` value),
the form, and the `allow_negative_sales` setting.  Mirrors the source
order: query-kind resolution, per-kind permission check, generated number,
form kind, person resolution, row collection with the sales stock check,
non-empty-rows and positive-total guards, number-collision fallback,
invoice + lines insertion with stock/PriceHistory effects, person balance
move, commit.  Error redirects occur before any mutation, so they return
the pre-state unchanged; the route never calls `record_ledger`. -/
def unified_invoice_post (db : DBState) (u : User) (args_kind : Option String)
    (jref : String) (form : InvoiceForm) (allowNeg : Bool) :
    InvOutcome × DBState :=
  let kind := kindResolved args_kind
  if ¬ ensure_permission_allows u kind then (.forbidden, db)
  else
    let gen := if kind == "sales" then jref else purchaseGeneratedNumber db
    let fk := formKind kind form.invoice_kind
    let number := manualInvoiceNumber db gen form
    match resolvePerson db form.person_token form.person_code with
    | none => (.error "invalid-person", db)
    | some person =>
        match processRows db fk allowNeg form.rows [] [] with
        | .error tag => (.error tag, db)
        | .ok rows =>
            if rows.isEmpty then (.error "no-valid-rows", db)
            else
              let subtotal := (rows.map (fun r => r.unit_price * r.qty)).sum
              let discount : ℚ := 0
              let tax : ℚ := 0
              let total := subtotal - discount + tax
              if total ≤ 0 then (.error "non-positive-total", db)
              else
                let inv_id := nextInvoiceId db
                let inv : Invoice :=
                  { id := inv_id, number := number, person_id := person.id,
                    kind := fk, discount := discount, tax := tax, total := total }
                let t := commitRows fk inv_id person.id rows
                  db.entities db.invoice_lines db.price_history
                let entities2 := updateFirstEntity t.1 person.id (fun e =>
                  { e with balance :=
                      if fk == "sales" then e.balance + total else e.balance - total })
                (.success inv_id,
                  { db with entities := entities2,
                            invoices := db.invoices ++ [inv],
                            invoice_lines := t.2.1,
                            price_history := t.2.2 })

/-- The stock the database records for item id `i` (0 when the id is
absent). -/
def stockOf (db : DBState) (i : Nat) : ℚ :=
  match findEntity db i with
  | some e => e.stock_qty
  | none => 0

/-- Total quantity a list of accepted rows charges against item `i`. -/
def qtySum (rows : List RowItem) (i : Nat) : ℚ :=
  ((rows.filter (fun r => r.item.id == i)).map (fun r => r.qty)).sum

/-- The rows the submission would accept were the stock check disabled:
the row-collection loop run with the allow-negative setting on (that run
never rejects). -/
def candidateRows (db : DBState) (fk : String) (form : InvoiceForm) : List RowItem :=
  match processRows db fk true form.rows [] [] with
  | .ok rows => rows
  | .error _ => []

/-- Some accepted row drives the running projection of its item's stock —
the database stock minus the quantities accumulated across the rows up to
and including it — below `-1e-6`. -/
def overdrawAt (db : DBState) (rows : List RowItem) : Prop :=
  ∃ k : Fin rows.length,
    stockOf db (rows.get k).item.id -
      qtySum (rows.take (k.val + 1)) (rows.get k).item.id < -stockEps

/-! ## §7 Unified cash-document route (`src/app.py`, `unified_cash`) -/

/-- Substring containment over character lists (Python's `in` on str). -/
def listContainsSub : List Char → List Char → Bool
  | _, [] => true
  | [], _ :: _ => false
  | h :: t, n :: ns =>
      if (n :: ns).isPrefixOf (h :: t) then true else listContainsSub t (n :: ns)

/-- Python `needle in hay` for strings. -/
def strContains (hay needle : String) : Bool := listContainsSub hay.data needle.data

/-- The kind resolution at the top of `unified_cash`: the `kind` query
parameter when non-empty, else the route alias reached (`/receive` or
`/payment` as a substring of the request path), defaulting to receive. -/
def cashKindResolved (args_kind : Option String) (path : String) : String :=
  let k := pyLower (pyStrip (args_kind.getD ""))
  if k ≠ "" then k
  else if strContains path "/receive" then "receive"
  else if strContains path "/payment" then "payment"
  else "receive"

/-- Python `"".join(ch for ch in s if ch.isdigit())`. -/
def digitsOnly (s : String) : String := String.mk (s.data.filter Char.isDigit)

/-- The cash-box binding of `unified_cash`: a numeric `cashbox_id` form
value is looked up by primary key, and an inactive box is discarded. -/
def resolveCashbox (db : DBState) (raw : String) : Option CashBox :=
  if isDigits (pyStrip raw) then
    match db.cashboxes.find? (fun cb => cb.id == toNatD (pyStrip raw)) with
    | some cb => if cb.is_active then some cb else none
    | none => none
  else none

/-- The method normalisation of `unified_cash`: strip/lower, and anything
outside pos/cash/bank/cheque becomes `cash`. -/
def cashMethod (m : Option String) : String :=
  let m0 := pyLower (pyStrip (m.getD ""))
  if m0 == "pos" || m0 == "cash" || m0 == "bank" || m0 == "cheque" then m0 else "cash"

/-- The cash-document POST form.  `amount` carries the `_to_float(_, 0.0)`
value; `person_token`/`person_code` their stripped values; `note` and the
cheque text fields their stripped-or-`None` values; the due date arrives as
the already-parsed opaque optional date. -/
structure CashForm where
  cash_kind : Option String
  doc_number : Option String
  person_token : String
  person_code : String
  amount : ℚ
  method : Option String
  note : Option String
  cashbox_id : String
  cheque_number : String
  cheque_bank : Option String
  cheque_branch : Option String
  cheque_account : Option String
  cheque_owner : Option String
  cheque_due_date : Option String
deriving DecidableEq, Repr

/-- Outcome of a POST to the unified cash-document route; success carries
the committed row (also appended to `cash_docs`). -/
inductive CashOutcome where
  | forbidden
  | error (tag : String)
  | success (doc : CashDoc)
deriving DecidableEq, Repr

/-- The POST handler of `unified_cash` from `src/app.py`.  Mirrors the
source order: path/query kind resolution, permission check, form kind,
number defaulting (`gen_number` is the clock-derived `RCV`/`PAY` Jalali
reference), person resolution, positive-amount guard, method
normalisation (unknown methods become `cash`), cash-box binding, cheque
digit-stripping, the cheque-specific guards (bound active bank box,
exactly 16 digits), clearing of every cheque field when the method is not
`cheque`, row insertion, person balance move (receive subtracts, anything
else adds), commit.  The cash/bank box-kind mismatch only flashes a
warning in the source and has no state effect. -/
def unified_cash_post (db : DBState) (u : User) (args_kind : Option String)
    (path : String) (gen_number : String) (form : CashForm) :
    CashOutcome × DBState :=
  let kind := cashKindResolved args_kind path
  if ¬ ensure_permission_allows u kind then (.forbidden, db)
  else
    let form_kind := pyLower (pyStrip (form.cash_kind.getD kind))
    let number := match form.doc_number with
      | none => gen_number
      | some s => if pyStrip s == "" then gen_number else pyStrip s
    match resolvePerson db form.person_token form.person_code with
    | none => (.error "invalid-person", db)
    | some person =>
        if form.amount ≤ 0 then (.error "non-positive-amount", db)
        else
          let method := cashMethod form.method
          let cashbox := resolveCashbox db form.cashbox_id
          let stripped := digitsOnly form.cheque_number
          let boxNotBank : Bool := match cashbox with
            | none => true
            | some cb => cb.kind != "bank"
          if method == "cheque" && boxNotBank then
            (.error "cheque-needs-bank-box", db)
          else if method == "cheque" && stripped.data.length != 16 then
            (.error "cheque-number-not-16-digits", db)
          else
            let doc : CashDoc :=
              { id := nextCashDocId db, doc_type := form_kind, number := number,
                person_id := person.id, amount := form.amount, method := method,
                note := form.note,
                cashbox_id := (cashbox.map (·.id)),
                cheque_number :=
                  if method == "cheque" then
                    (if stripped == "" then none else some stripped)
                  else none,
                cheque_bank := if method == "cheque" then form.cheque_bank else none,
                cheque_branch := if method == "cheque" then form.cheque_branch else none,
                cheque_account := if method == "cheque" then form.cheque_account else none,
                cheque_owner := if method == "cheque" then form.cheque_owner else none,
                cheque_due_date := if method == "cheque" then form.cheque_due_date else none }
            let entities' := updateFirstEntity db.entities person.id (fun e =>
              { e with balance :=
                  if form_kind == "receive" then e.balance - form.amount
                  else e.balance + form.amount })
            (.success doc,
              { db with entities := entities',
                        cash_docs := db.cash_docs ++ [doc] })

/-! ## §8 AI-assistant invoice apply path (`src/app.py`,
`_apply_invoice_plan` with `_ensure_entity`) -/

/-- One item row of an assistant invoice plan; `qty`/`unit_price` carry
their `_to_float(_, 0.0)` values. -/
structure PlanRow where
  entity_id : Option Nat
  code : Option String
  name : Option String
  qty : ℚ
  unit_price : ℚ
deriving DecidableEq, Repr

/-- An assistant invoice plan. -/
structure InvoicePlan where
  kind : Option String
  partner_entity_id : Option Nat
  partner_code : Option String
  partner_name : Option String
  number : Option String
  items : List PlanRow
deriving DecidableEq, Repr

/-- Function `_ensure_entity(kind, data)` from `src/app.py`: look up an
existing entity by numeric code, then by name, else create one (flushed
into the session) with zero stock and balance.  The generated code and the
level/parent wiring of a created entity are read by no claim; the code
value is taken as the opaque `genCode` argument in place of
`_generate_entity_code`'s output. -/
def ensure_entity (db : DBState) (etype : String) (name0 code0 : Option String)
    (genCode : String) : Except String (Entity × DBState) :=
  let name := pyStrip (name0.getD "")
  let code := pyStrip (code0.getD "")
  if name == "" then .error "entity-missing-name"
  else
    let byCode := if code ≠ "" ∧ isDigits code then
        db.entities.find? (fun e => e.etype == etype && e.code == code)
      else none
    let existing := match byCode with
      | some e => some e
      | none => db.entities.find? (fun e => e.etype == etype && e.name == name)
    match existing with
    | some e => .ok (e, db)
    | none =>
        let ent : Entity :=
          { id := nextEntityId db, etype := etype, code := genCode,
            name := name, stock_qty := 0, balance := 0 }
        .ok (ent, { db with entities := db.entities ++ [ent] })

/-- The partner resolution at the top of `_apply_invoice_plan`: a truthy
`entity_id` is looked up by primary key; a miss (or no id) falls back to
`_ensure_entity("person", ...)`. -/
def resolvePlanPartner (db : DBState) (plan : InvoicePlan) (genCode : String) :
    Except String (Entity × DBState) :=
  match plan.partner_entity_id with
  | some i =>
      if i == 0 then ensure_entity db "person" plan.partner_name plan.partner_code genCode
      else
        match findEntity db i with
        | some e => .ok (e, db)
        | none => ensure_entity db "person" plan.partner_name plan.partner_code genCode
  | none => ensure_entity db "person" plan.partner_name plan.partner_code genCode

/-- The per-row item resolution of `_apply_invoice_plan`'s item loop. -/
def resolvePlanItem (db : DBState) (row : PlanRow) (genCode : String) :
    Except String (Entity × DBState) :=
  match row.entity_id with
  | some i =>
      if i == 0 then ensure_entity db "item" row.name row.code genCode
      else
        match findEntity db i with
        | some e => .ok (e, db)
        | none => ensure_entity db "item" row.name row.code genCode
  | none => ensure_entity db "item" row.name row.code genCode

/-- The item-collection loop of `_apply_invoice_plan`: rows with `qty ≤ 0`
are skipped; each remaining row resolves its entity by id or through
`_ensure_entity`; for sales without the allow-negative setting a row whose
quantity exceeds the entity's *current stored* stock by more than `1e-6`
raises.  Creations are flushed, so later rows see them.  A zero
`entity_id` is falsy in the source and skips the id lookup. -/
def collectPlanItems (kind : String) (allowNeg : Bool) (genCode : String) :
    List PlanRow → DBState → List RowItem →
    Except String (List RowItem × DBState)
  | [], db, acc => .ok (acc, db)
  | row :: rest, db, acc =>
      if row.qty ≤ 0 then collectPlanItems kind allowNeg genCode rest db acc
      else
        match resolvePlanItem db row genCode with
        | .error tag => .error tag
        | .ok (item, db') =>
            if kind == "sales" ∧ ¬allowNeg ∧
                item.stock_qty - row.qty < -stockEps then
              .error "insufficient-stock"
            else
              collectPlanItems kind allowNeg genCode rest db'
                (acc ++ [⟨item, row.unit_price, row.qty⟩])

/-- The mutation loop of `_apply_invoice_plan`: append each line, move the
item's stock, and — for sales only — upsert the partner's PriceHistory row;
accumulates the running total. -/
def commitPlanLines (kind : String) (inv_id pid : Nat) :
    List RowItem → List Entity → List InvoiceLine → List PriceHistory → ℚ →
    List Entity × List InvoiceLine × List PriceHistory × ℚ
  | [], entities, lines, ph, tot => (entities, lines, ph, tot)
  | r :: rest, entities, lines, ph, tot =>
      let line : InvoiceLine :=
        { invoice_id := inv_id, item_id := r.item.id, qty := r.qty,
          unit_price := r.unit_price, line_total := r.qty * r.unit_price }
      let entities' := updateFirstEntity entities r.item.id (fun e =>
        { e with stock_qty :=
            if kind == "sales" then e.stock_qty - r.qty else e.stock_qty + r.qty })
      let ph' := if kind == "sales" then upsertPH ph pid r.item.id r.unit_price else ph
      commitPlanLines kind inv_id pid rest entities' (lines ++ [line]) ph' (tot + r.qty * r.unit_price)

/-- The invoice-number selection of `_apply_invoice_plan`: the plan's
stripped number when non-empty else `generate_invoice_number()`, replaced
by `generate_invoice_number()` again on collision. -/
def planInvoiceNumber (db1 : DBState) (plan : InvoicePlan) : String :=
  let gen := generate_invoice_number db1
  let number0 := match plan.number with
    | none => gen
    | some s => if pyStrip s == "" then gen else pyStrip s
  if db1.invoices.any (fun i => i.number == number0) then
    generate_invoice_number db1
  else number0

/-- Function `_apply_invoice_plan(plan)` from `src/app.py`.  `genCode`
stands for `_generate_entity_code`'s outputs,
`ledger_ts`/`ledger_created`/`payload_text` for the hashed ledger
timestamp, the flushed row's `created_at` sample and the serialized ledger
payload, `H` for sha256.
Every raising path is followed by a session rollback (explicit for the
non-positive total, by the calling route's error handler otherwise), so
errors return the untouched pre-state; success commits and then appends the
invoice ledger entry via `record_ledger`. -/
def applyInvoicePlan (db : DBState) (plan : InvoicePlan) (genCode : String)
    (allowNeg : Bool) (H : String → String)
    (ledger_ts ledger_created payload_text : String) :
    Except String Nat × DBState :=
  let kind := plan.kind.getD "sales"
  match resolvePlanPartner db plan genCode with
  | .error tag => (.error tag, db)
  | .ok (partner, db1) =>
      let number := planInvoiceNumber db1 plan
      match collectPlanItems kind allowNeg genCode plan.items db1 [] with
      | .error tag => (.error tag, db)
      | .ok (items, db2) =>
          if items.isEmpty then (.error "no-valid-plan-rows", db)
          else
            let inv_id := nextInvoiceId db2
            let t := commitPlanLines kind inv_id partner.id items
              db2.entities db2.invoice_lines db2.price_history 0
            let total := t.2.2.2
            if total ≤ 0 then (.error "non-positive-total", db)
            else
              let inv : Invoice :=
                { id := inv_id, number := number, person_id := partner.id,
                  kind := kind, discount := 0, tax := 0, total := total }
              let entities2 := updateFirstEntity t.1 partner.id (fun e =>
                { e with balance :=
                    if kind == "sales" then e.balance + total else e.balance - total })
              let ledger' := record_ledger H db2.ledger
                { object_type := "invoice", object_id := some (toString inv_id),
                  action := "create", ts := ledger_ts,
                  created_at := ledger_created, payload_text := payload_text }
              (.ok inv_id,
                { db2 with entities := entities2,
                           invoices := db2.invoices ++ [inv],
                           invoice_lines := t.2.1,
                           price_history := t.2.2.1,
                           ledger := ledger' })

/-- Two database states that can differ only in the `entities` table (the
only table `_ensure_entity` and the plan item-collection loop touch). -/
def SameButEntities (db db' : DBState) : Prop :=
  db'.invoices = db.invoices ∧ db'.invoice_lines = db.invoice_lines ∧
  db'.price_history = db.price_history ∧ db'.cashboxes = db.cashboxes ∧
  db'.cash_docs = db.cash_docs ∧ db'.ledger = db.ledger

/-! ## §9 Concrete fixtures used by counterexamples and witnesses -/

/-- A two-entity database: one person, one item with stock 5. -/
def witnessDB : DBState :=
  ⟨[⟨1, "person", "100", "Ali", 0, 0⟩, ⟨2, "item", "200", "Gadget", 5, 0⟩],
   [], [], [], [], [], []⟩

/-- An admin user. -/
def witnessAdmin : User := ⟨"root", "admin", []⟩

/-- A one-line purchase submission of the unified invoice form. -/
def witnessPurchaseForm : InvoiceForm :=
  ⟨some "purchase", none, "1", "", [⟨"2", "", 100, 1⟩]⟩

/-- The database state after committing `witnessPurchaseForm` on
`witnessDB`: stock incremented, balance decreased by the total, invoice and
line rows appended, and — notably — a PriceHistory row upserted although the
invoice kind is purchase. -/
def witnessDBAfterPurchase : DBState :=
  ⟨[⟨1, "person", "100", "Ali", 0, -100⟩, ⟨2, "item", "200", "Gadget", 6, 0⟩],
   [⟨1, "INV-1", 1, "purchase", 0, 0, 100⟩],
   [⟨1, 2, 1, 100, 100⟩],
   [⟨1, 2, 100⟩], [], [], []⟩

/-- A database with one person and one active bank cash box. -/
def witnessCashDB : DBState :=
  ⟨[⟨1, "person", "100", "Ali", 0, 0⟩], [], [], [],
   [⟨7, "Bank A", "bank", true⟩], [], []⟩

/-- A cheque submission of the unified cash form with a bound bank box and
a 16-digit (after stripping) cheque number. -/
def witnessChequeForm : CashForm :=
  ⟨none, none, "1", "", 500, some "cheque", none, "7",
   "1234-5678-9012-3456", some "Melli", some "Karim", some "ACC9",
   some "Omid", some "2024-05-05"⟩

/-- The cash document committed for `witnessChequeForm`. -/
def witnessChequeDoc : CashDoc :=
  ⟨1, "receive", "RCV-1", 1, 500, "cheque", none, some 7,
   some "1234567890123456", some "Melli", some "Karim", some "ACC9",
   some "Omid", some "2024-05-05"⟩

/-- The database state after committing `witnessChequeForm`. -/
def witnessCashDBAfter : DBState :=
  ⟨[⟨1, "person", "100", "Ali", 0, -500⟩], [], [], [],
   [⟨7, "Bank A", "bank", true⟩], [witnessChequeDoc], []⟩

/-- A sales submission asking for fifteen units of the stock-5 gadget. -/
def witnessOverdrawForm : InvoiceForm :=
  ⟨none, some "INV-7", "1", "", [⟨"2", "", 100, 15⟩]⟩

/-- A cheque submission whose cheque number strips to only three digits. -/
def witnessBadChequeForm : CashForm :=
  ⟨none, none, "1", "", 500, some "cheque", none, "7",
   "123", some "Melli", some "Karim", some "ACC9", some "Omid",
   some "2024-05-05"⟩

end HesabPak

namespace HesabPak

/-- The known-date sanity check behind C7's concrete half. -/
theorem g2j_concrete_check : g2j 2024 3 20 = (1403, 1, 1) := by decide

/-- C7: `to_jdate_str` maps the Gregorian date 2024-03-20 to the Jalali
string "1403-01-01"; on every Gregorian calendar date it formats the `g2j`
result as zero-padded `YYYY{sep}MM{sep}DD`; and every non-date input is
returned unchanged. -/
theorem C7_to_jdate_str :
    to_jdate_str (.date 2024 3 20) "-" = .text "1403-01-01" ∧
    (∀ (y m d : Int) (sep : String), 1 ≤ m → m ≤ 12 →
      to_jdate_str (.date y m d) sep =
        .text (pyFmt0d 4 (g2j y m d).1 ++ sep ++ pyFmt0d 2 (g2j y m d).2.1 ++
          sep ++ pyFmt0d 2 (g2j y m d).2.2)) ∧
    (∀ (s sep : String), to_jdate_str (.text s) sep = .text s) := by
  refine ⟨?_, ?_, ?_⟩
  · have h := g2j_concrete_check
    simp [to_jdate_str, h]
    decide
  · intro y m d sep _ _
    rfl
  · intro s sep
    rfl

/-- Witness for C7: the universally quantified formatting half applied at
the concrete date 2024-03-20 with separator "-", hypotheses discharged. -/
theorem C7_to_jdate_str_witness :
    (1 ≤ (3 : Int) ∧ (3 : Int) ≤ 12) ∧
    to_jdate_str (.date 2024 3 20) "-" =
      .text (pyFmt0d 4 (g2j 2024 3 20).1 ++ "-" ++ pyFmt0d 2 (g2j 2024 3 20).2.1 ++
        "-" ++ pyFmt0d 2 (g2j 2024 3 20).2.2) :=
  ⟨⟨by decide, by decide⟩, C7_to_jdate_str.2.1 2024 3 20 "-" (by decide) (by decide)⟩

/-- Auxiliary: the empty `ledger_entries` table is chain-linked. -/
theorem chainLinked_nil (H : String → String) : chainLinked H [] := by
  intro k
  exact absurd k.isLt (by simp)

/-- Auxiliary: `record_ledger` preserves the claimed full invariant only
for a call whose two clock samples coincide. -/
theorem chainLinked_record_ledger (H : String → String) (t : List LedgerRow)
    (c : LedgerCall) (hc : c.created_at = c.ts) (ht : chainLinked H t) :
    chainLinked H (record_ledger H t c) := by
  rintro ⟨k, hk⟩
  have hlen : (record_ledger H t c).length = t.length + 1 := by
    simp [record_ledger]
  have hk' : k < t.length + 1 := hlen ▸ hk
  by_cases hkt : k < t.length
  · have hget : (record_ledger H t c).get ⟨k, hk⟩ = t.get ⟨k, hkt⟩ := by
      simp [record_ledger, List.get_eq_getElem, List.getElem_append_left hkt]
    rcases ht ⟨k, hkt⟩ with ⟨hprev, hhash⟩
    constructor
    · rw [hget]
      by_cases hk0 : k = 0
      · simpa [hk0] using hprev
      · have hk1 : k - 1 < t.length := by omega
        have hget1 : (record_ledger H t c).get
            ⟨k - 1, lt_of_le_of_lt (Nat.pred_le _) hk⟩ = t.get ⟨k - 1, hk1⟩ := by
          simp [record_ledger, List.get_eq_getElem, List.getElem_append_left hk1]
        rw [hget1]
        simpa [hk0] using hprev
    · rw [hget]; exact hhash
  · have hkeq : k = t.length := by omega
    have hget : (record_ledger H t c).get ⟨k, hk⟩ =
        { id := t.length + 1, created_at := c.created_at,
          object_type := c.object_type, object_id := c.object_id,
          action := c.action, payload := c.payload_text,
          prev_hash := (t.getLast?).map (·.hash),
          hash := compute_entry_hash H ((t.getLast?).map (·.hash))
            c.payload_text c.ts } := by
      subst hkeq
      simp [record_ledger, List.get_eq_getElem]
    refine ⟨?_, ?_⟩
    · rw [hget]
      by_cases hk0 : k = 0
      · have ht0 : t = [] := by
          have : t.length = 0 := by omega
          exact List.length_eq_zero.mp this
        simp [hk0, ht0]
      · have htpos : 0 < t.length := by omega
        have hlast : t.getLast? = some (t.get ⟨t.length - 1, by omega⟩) := by
          rw [List.getLast?_eq_getElem?, List.getElem?_eq_getElem (by omega)]
          simp [List.get_eq_getElem]
        have hget1 : (record_ledger H t c).get
            ⟨k - 1, lt_of_le_of_lt (Nat.pred_le _) hk⟩ =
            t.get ⟨t.length - 1, by omega⟩ := by
          simp [record_ledger, List.get_eq_getElem, hkeq,
            List.getElem_append_left (show t.length - 1 < t.length by omega)]
        rw [hget1]
        simp [hk0, hlast]
    · rw [hget, hc]

/-- Auxiliary: the empty table satisfies the prev-hash linkage. -/
theorem chainPrevLinked_nil : chainPrevLinked [] := by
  intro k
  exact absurd k.isLt (by simp)

/-- Auxiliary: `record_ledger` always preserves the prev-hash linkage,
whatever the call's clock samples. -/
theorem chainPrevLinked_record_ledger (H : String → String)
    (t : List LedgerRow) (c : LedgerCall) (ht : chainPrevLinked t) :
    chainPrevLinked (record_ledger H t c) := by
  rintro ⟨k, hk⟩
  have hlen : (record_ledger H t c).length = t.length + 1 := by
    simp [record_ledger]
  have hk' : k < t.length + 1 := hlen ▸ hk
  by_cases hkt : k < t.length
  · have hget : (record_ledger H t c).get ⟨k, hk⟩ = t.get ⟨k, hkt⟩ := by
      simp [record_ledger, List.get_eq_getElem, List.getElem_append_left hkt]
    have hprev := ht ⟨k, hkt⟩
    rw [hget]
    by_cases hk0 : k = 0
    · simpa [hk0] using hprev
    · have hk1 : k - 1 < t.length := by omega
      have hget1 : (record_ledger H t c).get
          ⟨k - 1, lt_of_le_of_lt (Nat.pred_le _) hk⟩ = t.get ⟨k - 1, hk1⟩ := by
        simp [record_ledger, List.get_eq_getElem, List.getElem_append_left hk1]
      rw [hget1]
      simpa [hk0] using hprev
  · have hkeq : k = t.length := by omega
    have hget : (record_ledger H t c).get ⟨k, hk⟩ =
        { id := t.length + 1, created_at := c.created_at,
          object_type := c.object_type, object_id := c.object_id,
          action := c.action, payload := c.payload_text,
          prev_hash := (t.getLast?).map (·.hash),
          hash := compute_entry_hash H ((t.getLast?).map (·.hash))
            c.payload_text c.ts } := by
      subst hkeq
      simp [record_ledger, List.get_eq_getElem]
    rw [hget]
    by_cases hk0 : k = 0
    · have ht0 : t = [] := by
        have : t.length = 0 := by omega
        exact List.length_eq_zero.mp this
      simp [hk0, ht0]
    · have htpos : 0 < t.length := by omega
      have hlast : t.getLast? = some (t.get ⟨t.length - 1, by omega⟩) := by
        rw [List.getLast?_eq_getElem?, List.getElem?_eq_getElem (by omega)]
        simp [List.get_eq_getElem]
      have hget1 : (record_ledger H t c).get
          ⟨k - 1, lt_of_le_of_lt (Nat.pred_le _) hk⟩ =
          t.get ⟨t.length - 1, by omega⟩ := by
        simp [record_ledger, List.get_eq_getElem, hkeq,
          List.getElem_append_left (show t.length - 1 < t.length by omega)]
      rw [hget1]
      simp [hk0, hlast]

/-- C6: the prev-hash linkage half of the claim holds for every sequence
of `record_ledger` calls from an empty table, and the full claimed
invariant holds exactly when every call's two clock samples coincide; but
the source hashes a `datetime.utcnow()` sample it never stores while
`created_at` comes from a second sample at flush time, and with diverging
samples recomputing the hash from the stored `created_at` fails to
reproduce the stored `hash` — exhibited at a concrete one-call run. -/
theorem C6_record_ledger_chain :
    (∀ (H : String → String) (calls : List LedgerCall),
      chainPrevLinked (runLedger H calls)) ∧
    (∀ (H : String → String) (calls : List LedgerCall),
      (∀ c ∈ calls, c.created_at = c.ts) →
      chainLinked H (runLedger H calls)) ∧
    ¬ chainLinked (fun st => st) (runLedger (fun st => st)
      [⟨"invoice", some "1", "create", "2024-01-01T00:00:00.000001",
        "2024-01-01T00:00:00.000404", "payload-a"⟩]) := by
  refine ⟨?_, ?_, ?_⟩
  · intro H calls
    suffices h : ∀ (cs : List LedgerCall) (t : List LedgerRow),
        chainPrevLinked t → chainPrevLinked (cs.foldl (record_ledger H) t) by
      exact h calls [] chainPrevLinked_nil
    intro cs
    induction cs with
    | nil => intro t ht; simpa using ht
    | cons c rest ih =>
        intro t ht
        exact ih _ (chainPrevLinked_record_ledger H t c ht)
  · intro H calls hcl
    suffices h : ∀ (cs : List LedgerCall),
        (∀ c ∈ cs, c.created_at = c.ts) → ∀ (t : List LedgerRow),
        chainLinked H t → chainLinked H (cs.foldl (record_ledger H) t) by
      exact h calls hcl [] (chainLinked_nil H)
    intro cs
    induction cs with
    | nil => intro _ t ht; simpa using ht
    | cons c rest ih =>
        intro hmem t ht
        exact ih (fun c' hc' => hmem c' (List.mem_cons_of_mem c hc')) _
          (chainLinked_record_ledger H t c
            (hmem c (List.mem_cons_self c rest)) ht)
  · simp only [chainLinked]
    decide

/-- Auxiliary: the `last["hash"] if last else seed` read of the file ledger,
rephrased through `lastHash`. -/
theorem getLast?_lastHash : ∀ (c : List Block) (p : String),
    (match c.getLast? with | some b => b.hash | none => p) = lastHash p c := by
  intro c
  induction c with
  | nil => intro p; rfl
  | cons b rest ih =>
      intro p
      cases hr : rest with
      | nil => simp [lastHash, List.getLast?]
      | cons b2 rest2 =>
          subst hr
          have h2 := ih b.hash
          show (match (b :: b2 :: rest2).getLast? with
                | some x => x.hash | none => p) = lastHash b.hash (b2 :: rest2)
          rw [List.getLast?_cons_cons, ← h2]
          cases hgl : (b2 :: rest2).getLast? with
          | none => simp at hgl
          | some x => rfl

/-- Auxiliary: appending a block whose hash links to the current chain tail
and whose signature signs that hash preserves `verify_chain`'s walk. -/
theorem verifyFrom_snoc (H : String → String) (hmacHex : String → String → String)
    (secret : String) :
    ∀ (chain : List Block) (p : String) (blk : Block),
      blk.hash = H (blk.dataText ++ lastHash p chain ++ blk.ts) →
      blk.sig = hmacHex secret blk.hash →
      verifyFrom H hmacHex secret p chain = true →
      verifyFrom H hmacHex secret p (chain ++ [blk]) = true := by
  intro chain
  induction chain with
  | nil =>
      intro p blk hh hs _
      simp only [lastHash] at hh
      simp [verifyFrom, hh, hs]
  | cons b rest ih =>
      intro p blk hh hs hv
      rw [verifyFrom] at hv
      by_cases h1 : b.hash = H (b.dataText ++ p ++ b.ts)
      · by_cases h2 : b.sig = hmacHex secret (H (b.dataText ++ p ++ b.ts))
        · have hrest : verifyFrom H hmacHex secret b.hash rest = true := by
            simpa [h1, h2] using hv
          have hh' : blk.hash = H (blk.dataText ++ lastHash b.hash rest ++ blk.ts) := hh
          have h2' := h2
          rw [← h1] at h2'
          rw [List.cons_append, verifyFrom]
          simp only [← h1, ne_eq, not_true_eq_false, if_false, h2',
            not_false_eq_true]
          exact ih b.hash blk hh' hs hrest
        · simp [h1, h2] at hv
      · simp [h1] at hv

/-- Auxiliary: a fresh genesis chain passes `verify_chain`. -/
theorem init_chain_verifies (H : String → String) (hmacHex : String → String → String)
    (secret ts : String) :
    verify_chain H hmacHex secret (init_chain H hmacHex secret ts) = true := by
  simp [verify_chain, init_chain, verifyFrom]

/-- Auxiliary: `append_event` preserves `verify_chain`. -/
theorem verify_chain_append_event (H : String → String)
    (hmacHex : String → String → String) (secret : String)
    (chain : List Block) (c : AppendCall)
    (hv : verify_chain H hmacHex secret chain = true) :
    verify_chain H hmacHex secret (append_event H hmacHex secret chain c) = true := by
  have hprev := getLast?_lastHash chain zero64
  unfold verify_chain append_event
  refine verifyFrom_snoc H hmacHex secret chain zero64 _ ?_ rfl hv
  show H (c.dataText ++ (match chain.getLast? with
      | some b => b.hash | none => zero64) ++ c.ts) =
    H (c.dataText ++ lastHash zero64 chain ++ c.ts)
  rw [hprev]

/-- C8: `verify_chain` accepts the empty chain, and accepts every chain
obtained from a freshly initialized ledger (genesis block from
`_init_chain`) followed by any finite sequence of `append_event` calls —
every stored hash, signature and link re-verifies, for arbitrary sha256 and
HMAC stand-ins. -/
theorem C8_verify_chain :
    (∀ (H : String → String) (hmacHex : String → String → String)
      (secret : String), verify_chain H hmacHex secret [] = true) ∧
    (∀ (H : String → String) (hmacHex : String → String → String)
      (secret ts0 : String) (calls : List AppendCall),
      verify_chain H hmacHex secret
        (runFileLedger H hmacHex secret ts0 calls) = true) := by
  constructor
  · intro H hmacHex secret
    rfl
  · intro H hmacHex secret ts0 calls
    suffices h : ∀ (cs : List AppendCall) (chain : List Block),
        verify_chain H hmacHex secret chain = true →
        verify_chain H hmacHex secret
          (cs.foldl (append_event H hmacHex secret) chain) = true by
      exact h calls _ (init_chain_verifies H hmacHex secret ts0)
    intro cs
    induction cs with
    | nil => intro chain hc; simpa using hc
    | cons c rest ih =>
        intro chain hc
        exact ih _ (verify_chain_append_event H hmacHex secret chain c hc)

/-- Witness for C8: a concrete two-event run of the file ledger verifies,
via the theorem instantiated at concrete hash/HMAC stand-ins. -/
theorem C8_verify_chain_witness :
    verify_chain constHash constHmac "change-me-please"
      (runFileLedger constHash constHmac "change-me-please" "2024-01-01T00:00:00Z"
        [⟨"data-a", "2024-01-01T00:00:01Z"⟩, ⟨"data-b", "2024-01-01T00:00:02Z"⟩]) = true :=
  C8_verify_chain.2 constHash constHmac "change-me-please" "2024-01-01T00:00:00Z"
    [⟨"data-a", "2024-01-01T00:00:01Z"⟩, ⟨"data-b", "2024-01-01T00:00:02Z"⟩]

/-- C9 (evaluation at the failing input): the route's kind resolution
consults only the `kind` query parameter and defaults to sales, so a GET of
the `/purchase` alias without a query parameter resolves to `"sales"`,
whereas the claimed precedence (query parameter, then route alias, then
form field) would resolve it to `"purchase"`. -/
theorem C9_kind_resolution_ignores_alias :
    kindResolved none = "sales" ∧
    kindResolvedSpec none "/purchase" none = "purchase" ∧
    kindResolved none ≠ kindResolvedSpec none "/purchase" none := by
  refine ⟨rfl, rfl, ?_⟩
  decide

/-- C10: the per-kind permission gate of the unified invoice route is
decided solely by the query-parameter-derived kind, while the committed
kind comes from the `invoice_kind` form field; concretely, a staff user
holding only the sales permission can POST to `/invoice?kind=sales` with
`invoice_kind=purchase`, pass the gate, and commit a purchase invoice. -/
theorem C10_permission_checks_query_kind :
    (∀ (db : DBState) (u : User) (args_kind : Option String) (jref : String)
        (form : InvoiceForm) (allowNeg : Bool),
      ((unified_invoice_post db u args_kind jref form allowNeg).1 = .forbidden ↔
        ensure_permission_allows u (kindResolved args_kind) = false)) ∧
    ((unified_invoice_post
        ⟨[⟨1, "person", "100", "Ali", 0, 0⟩, ⟨2, "item", "200", "Gadget", 5, 0⟩],
          [], [], [], [], [], []⟩
        ⟨"seller", "staff", ["sales"]⟩ (some "sales") "INV-1"
        ⟨some "purchase", none, "1", "", [⟨"2", "", 100, 1⟩]⟩ false).1 =
          .success 1 ∧
      (unified_invoice_post
        ⟨[⟨1, "person", "100", "Ali", 0, 0⟩, ⟨2, "item", "200", "Gadget", 5, 0⟩],
          [], [], [], [], [], []⟩
        ⟨"seller", "staff", ["sales"]⟩ (some "sales") "INV-1"
        ⟨some "purchase", none, "1", "", [⟨"2", "", 100, 1⟩]⟩ false).2.invoices.map
          (·.kind) = ["purchase"] ∧
      ensure_permission_allows ⟨"seller", "staff", ["sales"]⟩ "purchase" = false) := by
  constructor
  · intro db u args_kind jref form allowNeg
    by_cases h : ensure_permission_allows u (kindResolved args_kind)
    · simp only [unified_invoice_post, h, not_true_eq_false, if_false]
      constructor
      · intro hcontra
        exfalso
        rcases hp : resolvePerson db form.person_token form.person_code with _ | person
        · simp [hp] at hcontra
        · rcases hr : processRows db (formKind (kindResolved args_kind) form.invoice_kind)
              allowNeg form.rows [] [] with tag | rows
          · simp [hp, hr] at hcontra
          · by_cases he : rows.isEmpty
            · simp [hp, hr, he] at hcontra
            · by_cases ht : ((rows.map (fun r => r.unit_price * r.qty)).sum : ℚ) ≤ 0
              · simp [hp, hr, he, ht] at hcontra
              · simp [hp, hr, he, ht] at hcontra
      · intro hcontra
        exact absurd hcontra (by decide)
    · simp only [unified_invoice_post, eq_false_of_ne_true h, not_false_eq_true, if_true]
      simp [h]
  · have hl : lookupRowItem
        ⟨[⟨1, "person", "100", "Ali", 0, 0⟩, ⟨2, "item", "200", "Gadget", 5, 0⟩],
          [], [], [], [], [], []⟩ "2" "" =
        some ⟨2, "item", "200", "Gadget", 5, 0⟩ := by decide
    have hpers : resolvePerson
        ⟨[⟨1, "person", "100", "Ali", 0, 0⟩, ⟨2, "item", "200", "Gadget", 5, 0⟩],
          [], [], [], [], [], []⟩ "1" "" =
        some ⟨1, "person", "100", "Ali", 0, 0⟩ := by decide
    have hrows : processRows
        ⟨[⟨1, "person", "100", "Ali", 0, 0⟩, ⟨2, "item", "200", "Gadget", 5, 0⟩],
          [], [], [], [], [], []⟩ "purchase" false [⟨"2", "", 100, 1⟩] [] [] =
        .ok [⟨⟨2, "item", "200", "Gadget", 5, 0⟩, 100, 1⟩] := by
      rw [processRows, hl]
      norm_num [processRows]
      exact fun h => absurd h (by decide)
    have hkr : kindResolved (some "sales") = "sales" := by decide
    have hfk : formKind "sales" (some "purchase") = "purchase" := by decide
    have hrun : unified_invoice_post
        ⟨[⟨1, "person", "100", "Ali", 0, 0⟩, ⟨2, "item", "200", "Gadget", 5, 0⟩],
          [], [], [], [], [], []⟩
        ⟨"seller", "staff", ["sales"]⟩ (some "sales") "INV-1"
        ⟨some "purchase", none, "1", "", [⟨"2", "", 100, 1⟩]⟩ false =
        (.success 1,
         ⟨[⟨1, "person", "100", "Ali", 0, -100⟩, ⟨2, "item", "200", "Gadget", 6, 0⟩],
          [⟨1, "INV-1", 1, "purchase", 0, 0, 100⟩],
          [⟨1, 2, 1, 100, 100⟩],
          [⟨1, 2, 100⟩], [], [], []⟩) := by
      simp only [unified_invoice_post, hkr, hfk, hpers, hrows]
      norm_num +decide [ensure_permission_allows, is_admin, commitRows,
        updateFirstEntity, upsertPH, setFirstPH, nextInvoiceId, List.any,
        List.find?, purchaseGeneratedNumber, manualInvoiceNumber]
    exact ⟨by rw [hrun], by rw [hrun]; rfl, by decide⟩

/-- Auxiliary: the concrete purchase submission of the fixtures commits and
produces `witnessDBAfterPurchase`. -/
theorem run_witness_purchase :
    unified_invoice_post witnessDB witnessAdmin (some "sales") "INV-1"
      witnessPurchaseForm false = (.success 1, witnessDBAfterPurchase) := by
  have hl : lookupRowItem witnessDB "2" "" =
      some ⟨2, "item", "200", "Gadget", 5, 0⟩ := by decide
  have hpers : resolvePerson witnessDB "1" "" =
      some ⟨1, "person", "100", "Ali", 0, 0⟩ := by decide
  have hrows : processRows witnessDB "purchase" false [⟨"2", "", 100, 1⟩] [] [] =
      .ok [⟨⟨2, "item", "200", "Gadget", 5, 0⟩, 100, 1⟩] := by
    rw [processRows, hl]
    norm_num [processRows]
    exact fun h => absurd h (by decide)
  have hkr : kindResolved (some "sales") = "sales" := by decide
  have hfk : formKind "sales" (some "purchase") = "purchase" := by decide
  show unified_invoice_post witnessDB witnessAdmin (some "sales") "INV-1"
      ⟨some "purchase", none, "1", "", [⟨"2", "", 100, 1⟩]⟩ false =
    (.success 1, witnessDBAfterPurchase)
  simp only [unified_invoice_post, hkr, hfk, hpers, hrows, witnessDBAfterPurchase]
  norm_num +decide [ensure_permission_allows, is_admin, commitRows,
    updateFirstEntity, upsertPH, setFirstPH, nextInvoiceId, List.any,
    List.find?, purchaseGeneratedNumber, manualInvoiceNumber, witnessDB]

/-- Auxiliary: the unified invoice route never touches the
`ledger_entries` table, whatever the outcome. -/
theorem unified_invoice_post_ledger (db : DBState) (u : User)
    (args_kind : Option String) (jref : String) (form : InvoiceForm)
    (allowNeg : Bool) :
    ((unified_invoice_post db u args_kind jref form allowNeg).2).ledger =
      db.ledger := by
  by_cases h : ensure_permission_allows u (kindResolved args_kind)
  · simp only [unified_invoice_post, h, not_true_eq_false, if_false]
    rcases hp : resolvePerson db form.person_token form.person_code with _ | person
    · simp [hp]
    · rcases hr : processRows db (formKind (kindResolved args_kind) form.invoice_kind)
          allowNeg form.rows [] [] with tag | rows
      · simp [hp, hr]
      · by_cases he : rows.isEmpty
        · simp [hp, hr, he]
        · by_cases ht : ((rows.map (fun r => r.unit_price * r.qty)).sum : ℚ) ≤ 0
          · simp [hp, hr, he, ht]
          · simp [hp, hr, he, ht]
  · simp only [unified_invoice_post, eq_false_of_ne_true h, not_false_eq_true, if_true]
    simp

/-- C2: contrary to the claim, the manual unified invoice route appends no
ledger entry at all — the ledger-recording block was misplaced into the body
of `record_ledger` itself, where it references undefined names and is
swallowed by its own exception handler; the route's state transition leaves
`ledger_entries` untouched on every input, including a successfully
committed invoice. -/
theorem C2_manual_invoice_writes_no_ledger :
    (∀ (db : DBState) (u : User) (args_kind : Option String) (jref : String)
        (form : InvoiceForm) (allowNeg : Bool),
      ((unified_invoice_post db u args_kind jref form allowNeg).2).ledger =
        db.ledger) ∧
    ((unified_invoice_post witnessDB witnessAdmin (some "sales") "INV-1"
        witnessPurchaseForm false).1 = .success 1 ∧
      ((unified_invoice_post witnessDB witnessAdmin (some "sales") "INV-1"
        witnessPurchaseForm false).2).ledger = []) := by
  refine ⟨unified_invoice_post_ledger, ?_, ?_⟩
  · rw [run_witness_purchase]
  · rw [run_witness_purchase]
    rfl

/-- Auxiliary: the lines committed by the manual route's mutation loop are
the pre-existing lines followed by one line per accepted row. -/
theorem commitRows_lines (fk : String) (inv_id pid : Nat) :
    ∀ (rows : List RowItem) (es : List Entity) (ls : List InvoiceLine)
      (ph : List PriceHistory),
      (commitRows fk inv_id pid rows es ls ph).2.1 =
        ls ++ rows.map (fun r =>
          { invoice_id := inv_id, item_id := r.item.id, qty := r.qty,
            unit_price := r.unit_price, line_total := r.qty * r.unit_price }) := by
  intro rows
  induction rows with
  | nil => intro es ls ph; simp [commitRows]
  | cons r rest ih =>
      intro es ls ph
      rw [commitRows, ih]
      simp

/-- Auxiliary: summing unit-price-times-quantity equals summing
quantity-times-unit-price over the same rows. -/
theorem sum_map_mul_comm :
    ∀ rows : List RowItem,
      ((rows.map (fun r => r.unit_price * r.qty)).sum : ℚ) =
        ((rows.map (fun r => r.qty * r.unit_price)).sum : ℚ) := by
  intro rows
  induction rows with
  | nil => rfl
  | cons r rest ih => simp [ih, mul_comm]

/-- Auxiliary: every non-success outcome of the unified invoice route
leaves the database untouched. -/
theorem unified_invoice_post_frame (db : DBState) (u : User)
    (args_kind : Option String) (jref : String) (form : InvoiceForm)
    (allowNeg : Bool) :
    (unified_invoice_post db u args_kind jref form allowNeg).2 = db ∨
      ∃ id, (unified_invoice_post db u args_kind jref form allowNeg).1 =
        .success id := by
  by_cases h : ensure_permission_allows u (kindResolved args_kind)
  · simp only [unified_invoice_post, h, not_true_eq_false, if_false]
    rcases hp : resolvePerson db form.person_token form.person_code with _ | person
    · simp [hp]
    · rcases hr : processRows db (formKind (kindResolved args_kind) form.invoice_kind)
          allowNeg form.rows [] [] with tag | rows
      · simp [hp, hr]
      · by_cases he : rows.isEmpty
        · simp [hp, hr, he]
        · by_cases ht : ((rows.map (fun r => r.unit_price * r.qty)).sum : ℚ) ≤ 0
          · simp [hp, hr, he, ht]
          · right
            simp [hp, hr, he, ht]
  · simp only [unified_invoice_post, eq_false_of_ne_true h, not_false_eq_true, if_true]
    simp

/-- Auxiliary: a successful manual-route commit appends exactly one invoice
whose total is positive and equals the sum of quantity times unit price
over its freshly appended lines. -/
theorem unified_invoice_post_success (db : DBState) (u : User)
    (args_kind : Option String) (jref : String) (form : InvoiceForm)
    (allowNeg : Bool) (idv : Nat)
    (hs : (unified_invoice_post db u args_kind jref form allowNeg).1 = .success idv) :
    ∃ inv : Invoice,
      ((unified_invoice_post db u args_kind jref form allowNeg).2).invoices =
        db.invoices ++ [inv] ∧ 0 < inv.total ∧
      inv.total = (((((unified_invoice_post db u args_kind jref form
          allowNeg).2).invoice_lines).drop db.invoice_lines.length).map
        (fun l => l.qty * l.unit_price)).sum := by
  by_cases h : ensure_permission_allows u (kindResolved args_kind)
  · simp only [unified_invoice_post, h, not_true_eq_false, if_false] at hs ⊢
    rcases hp : resolvePerson db form.person_token form.person_code with _ | person
    · simp [hp] at hs
    · rcases hr : processRows db (formKind (kindResolved args_kind) form.invoice_kind)
          allowNeg form.rows [] [] with tag | rows
      · simp [hp, hr] at hs
      · by_cases he : rows.isEmpty
        · simp [hp, hr, he] at hs
        · by_cases ht : ((rows.map (fun r => r.unit_price * r.qty)).sum : ℚ) ≤ 0
          · simp [hp, hr, he, ht] at hs
          · have ht' : ¬ ((rows.map (fun r => r.qty * r.unit_price)).sum ≤ (0 : ℚ)) := by
              rw [← sum_map_mul_comm]; exact ht
            simp [hp, hr, he, ht, ht', commitRows_lines, List.drop_left,
              List.map_map, Function.comp, sum_map_mul_comm, not_le.mp ht']
            exact congrArg List.sum (List.map_congr_left fun r _ => rfl)
  · simp only [unified_invoice_post, eq_false_of_ne_true h, not_false_eq_true,
      if_true] at hs
    simp at hs

/-- Auxiliary: `SameButEntities` is reflexive. -/
theorem sameButEntities_refl (db : DBState) : SameButEntities db db :=
  ⟨rfl, rfl, rfl, rfl, rfl, rfl⟩

/-- Auxiliary: `SameButEntities` is transitive. -/
theorem sameButEntities_trans {a b c : DBState}
    (h1 : SameButEntities a b) (h2 : SameButEntities b c) :
    SameButEntities a c := by
  obtain ⟨x1, x2, x3, x4, x5, x6⟩ := h1
  obtain ⟨y1, y2, y3, y4, y5, y6⟩ := h2
  exact ⟨y1.trans x1, y2.trans x2, y3.trans x3, y4.trans x4,
    y5.trans x5, y6.trans x6⟩

/-- Auxiliary: `_ensure_entity` touches only the `entities` table. -/
theorem ensure_entity_frame (db : DBState) (t : String) (n c : Option String)
    (g : String) (e : Entity) (db' : DBState)
    (h : ensure_entity db t n c g = .ok (e, db')) : SameButEntities db db' := by
  simp only [ensure_entity] at h
  split at h
  · cases h
  · split at h
    · rw [Except.ok.injEq, Prod.mk.injEq] at h
      rw [← h.2]
      exact sameButEntities_refl db
    · rw [Except.ok.injEq, Prod.mk.injEq] at h
      rw [← h.2]
      exact ⟨rfl, rfl, rfl, rfl, rfl, rfl⟩

/-- Auxiliary: the plan item resolution touches only the `entities`
table. -/
theorem resolvePlanItem_frame (db : DBState) (row : PlanRow) (g : String)
    (e : Entity) (db' : DBState)
    (h : resolvePlanItem db row g = .ok (e, db')) : SameButEntities db db' := by
  simp only [resolvePlanItem] at h
  split at h
  · split at h
    · exact ensure_entity_frame _ _ _ _ _ _ _ h
    · split at h
      · rw [Except.ok.injEq, Prod.mk.injEq] at h
        rw [← h.2]
        exact sameButEntities_refl db
      · exact ensure_entity_frame _ _ _ _ _ _ _ h
  · exact ensure_entity_frame _ _ _ _ _ _ _ h

/-- Auxiliary: the plan partner resolution touches only the `entities`
table. -/
theorem resolvePlanPartner_frame (db : DBState) (plan : InvoicePlan)
    (g : String) (e : Entity) (db' : DBState)
    (h : resolvePlanPartner db plan g = .ok (e, db')) :
    SameButEntities db db' := by
  simp only [resolvePlanPartner] at h
  split at h
  · split at h
    · exact ensure_entity_frame _ _ _ _ _ _ _ h
    · split at h
      · rw [Except.ok.injEq, Prod.mk.injEq] at h
        rw [← h.2]
        exact sameButEntities_refl db
      · exact ensure_entity_frame _ _ _ _ _ _ _ h
  · exact ensure_entity_frame _ _ _ _ _ _ _ h

/-- Auxiliary: the plan item-collection loop touches only the `entities`
table. -/
theorem collectPlanItems_frame (kind : String) (allowNeg : Bool) (g : String) :
    ∀ (rows : List PlanRow) (db : DBState) (acc items : List RowItem)
      (db' : DBState),
      collectPlanItems kind allowNeg g rows db acc = .ok (items, db') →
      SameButEntities db db' := by
  intro rows
  induction rows with
  | nil =>
      intro db acc items db' h
      rw [collectPlanItems, Except.ok.injEq, Prod.mk.injEq] at h
      rw [← h.2]
      exact sameButEntities_refl db
  | cons row rest ih =>
      intro db acc items db' h
      rw [collectPlanItems] at h
      split at h
      · exact ih _ _ _ _ h
      · rcases hri : resolvePlanItem db row g with tag | pair
        · rw [hri] at h
          cases h
        · rw [hri] at h
          rcases pair with ⟨item, dbi⟩
          rw [show (match Except.ok (item, dbi) with
              | Except.error tag => (Except.error tag :
                  Except String (List RowItem × DBState))
              | Except.ok (item, db1) =>
                if kind == "sales" ∧ ¬allowNeg ∧
                    item.stock_qty - row.qty < -stockEps then
                  Except.error "insufficient-stock"
                else
                  collectPlanItems kind allowNeg g rest db1
                    (acc ++ [⟨item, row.unit_price, row.qty⟩])) =
            (if kind == "sales" ∧ ¬allowNeg ∧
                item.stock_qty - row.qty < -stockEps then
              Except.error "insufficient-stock"
            else
              collectPlanItems kind allowNeg g rest dbi
                (acc ++ [⟨item, row.unit_price, row.qty⟩])) from rfl] at h
          split at h
          · cases h
          · exact sameButEntities_trans
              (resolvePlanItem_frame _ _ _ _ _ hri) (ih _ _ _ _ h)

/-- Auxiliary: the lines committed by the plan mutation loop are the
pre-existing lines followed by one line per accepted plan row. -/
theorem commitPlanLines_lines (kind : String) (inv_id pid : Nat) :
    ∀ (items : List RowItem) (es : List Entity) (ls : List InvoiceLine)
      (ph : List PriceHistory) (tot : ℚ),
      (commitPlanLines kind inv_id pid items es ls ph tot).2.1 =
        ls ++ items.map (fun r =>
          { invoice_id := inv_id, item_id := r.item.id, qty := r.qty,
            unit_price := r.unit_price, line_total := r.qty * r.unit_price }) := by
  intro items
  induction items with
  | nil => intro es ls ph tot; simp [commitPlanLines]
  | cons r rest ih =>
      intro es ls ph tot
      rw [commitPlanLines, ih]
      simp

/-- Auxiliary: the total accumulated by the plan mutation loop is the sum
of quantity times unit price over the accepted plan rows. -/
theorem commitPlanLines_total (kind : String) (inv_id pid : Nat) :
    ∀ (items : List RowItem) (es : List Entity) (ls : List InvoiceLine)
      (ph : List PriceHistory) (tot : ℚ),
      (commitPlanLines kind inv_id pid items es ls ph tot).2.2.2 =
        tot + ((items.map (fun r => r.qty * r.unit_price)).sum : ℚ) := by
  intro items
  induction items with
  | nil => intro es ls ph tot; simp [commitPlanLines]
  | cons r rest ih =>
      intro es ls ph tot
      rw [commitPlanLines, ih]
      simp
      ring

/-- Auxiliary: every non-success outcome of `_apply_invoice_plan` leaves
the database untouched (rollback semantics). -/
theorem applyInvoicePlan_frame (db : DBState) (plan : InvoicePlan)
    (genCode : String) (allowNeg : Bool) (H : String → String)
    (ts tc pt : String) :
    (applyInvoicePlan db plan genCode allowNeg H ts tc pt).2 = db ∨
      ∃ idv, (applyInvoicePlan db plan genCode allowNeg H ts tc pt).1 = .ok idv := by
  rcases hp : resolvePlanPartner db plan genCode with tag | pair
  · simp [applyInvoicePlan, hp]
  · rcases pair with ⟨partner, db1⟩
    rcases hc : collectPlanItems (plan.kind.getD "sales") allowNeg genCode
        plan.items db1 [] with tag | pair2
    · simp [applyInvoicePlan, hp, hc]
    · rcases pair2 with ⟨items, db2⟩
      by_cases he : items.isEmpty
      · simp [applyInvoicePlan, hp, hc, he]
      · by_cases ht : (commitPlanLines (plan.kind.getD "sales")
            (nextInvoiceId db2) partner.id items db2.entities
            db2.invoice_lines db2.price_history 0).2.2.2 ≤ (0 : ℚ)
        · simp [applyInvoicePlan, hp, hc, he, ht]
        · right
          simp [applyInvoicePlan, hp, hc, he, ht]

/-- Auxiliary: a successful `_apply_invoice_plan` commit appends exactly
one invoice whose total is positive and equals the sum of quantity times
unit price over its freshly appended lines. -/
theorem applyInvoicePlan_success (db : DBState) (plan : InvoicePlan)
    (genCode : String) (allowNeg : Bool) (H : String → String)
    (ts tc pt : String) (idv : Nat)
    (hs : (applyInvoicePlan db plan genCode allowNeg H ts tc pt).1 = .ok idv) :
    ∃ inv : Invoice,
      ((applyInvoicePlan db plan genCode allowNeg H ts tc pt).2).invoices =
        db.invoices ++ [inv] ∧ 0 < inv.total ∧
      inv.total = (((((applyInvoicePlan db plan genCode allowNeg H ts tc
          pt).2).invoice_lines).drop db.invoice_lines.length).map
        (fun l => l.qty * l.unit_price)).sum := by
  rcases hp : resolvePlanPartner db plan genCode with tag | pair
  · simp [applyInvoicePlan, hp] at hs
  · rcases pair with ⟨partner, db1⟩
    rcases hc : collectPlanItems (plan.kind.getD "sales") allowNeg genCode
        plan.items db1 [] with tag | pair2
    · simp [applyInvoicePlan, hp, hc] at hs
    · rcases pair2 with ⟨items, db2⟩
      have hfr : SameButEntities db db2 :=
        sameButEntities_trans (resolvePlanPartner_frame _ _ _ _ _ hp)
          (collectPlanItems_frame _ _ _ _ _ _ _ _ hc)
      by_cases he : items.isEmpty
      · simp [applyInvoicePlan, hp, hc, he] at hs
      · by_cases ht : (commitPlanLines (plan.kind.getD "sales")
            (nextInvoiceId db2) partner.id items db2.entities
            db2.invoice_lines db2.price_history 0).2.2.2 ≤ (0 : ℚ)
        · simp [applyInvoicePlan, hp, hc, he, ht] at hs
        · refine ⟨⟨nextInvoiceId db2, planInvoiceNumber db1 plan, partner.id,
            plan.kind.getD "sales", 0, 0,
            (commitPlanLines (plan.kind.getD "sales") (nextInvoiceId db2)
              partner.id items db2.entities db2.invoice_lines
              db2.price_history 0).2.2.2⟩, ?_, ?_, ?_⟩
          · simp only [applyInvoicePlan, hp, hc]
            simp only [he, Bool.false_eq_true, if_false, ht, ite_false]
            rw [hfr.1]
          · simpa [commitPlanLines_total] using not_le.mp ht
          · simp only [applyInvoicePlan, hp, hc]
            simp only [he, Bool.false_eq_true, if_false, ht, ite_false]
            rw [commitPlanLines_lines, hfr.2.1, List.drop_left,
              commitPlanLines_total, List.map_map]
            simp only [zero_add]
            exact congrArg List.sum (List.map_congr_left fun r _ => rfl)

/-- C4: an invoice submission whose computed total (sum of quantity times
unit price over the accepted rows) is not positive never commits — in both
the manual unified route and the AI-assistant apply path, every error
outcome leaves the database untouched, and every committed invoice has a
strictly positive total equal to that sum over its own lines, so a
non-positive-total submission is rejected with no Invoice or InvoiceLine
persisted. -/
theorem C4_non_positive_total_rejected :
    (∀ (db : DBState) (u : User) (args_kind : Option String) (jref : String)
        (form : InvoiceForm) (allowNeg : Bool) (tag : String),
      (unified_invoice_post db u args_kind jref form allowNeg).1 = .error tag →
      (unified_invoice_post db u args_kind jref form allowNeg).2 = db) ∧
    (∀ (db : DBState) (u : User) (args_kind : Option String) (jref : String)
        (form : InvoiceForm) (allowNeg : Bool) (idv : Nat),
      (unified_invoice_post db u args_kind jref form allowNeg).1 = .success idv →
      ∃ inv : Invoice,
        ((unified_invoice_post db u args_kind jref form allowNeg).2).invoices =
          db.invoices ++ [inv] ∧ 0 < inv.total ∧
        inv.total = (((((unified_invoice_post db u args_kind jref form
            allowNeg).2).invoice_lines).drop db.invoice_lines.length).map
          (fun l => l.qty * l.unit_price)).sum) ∧
    (∀ (db : DBState) (plan : InvoicePlan) (genCode : String) (allowNeg : Bool)
        (H : String → String) (ts tc pt : String) (tag : String),
      (applyInvoicePlan db plan genCode allowNeg H ts tc pt).1 = .error tag →
      (applyInvoicePlan db plan genCode allowNeg H ts tc pt).2 = db) ∧
    (∀ (db : DBState) (plan : InvoicePlan) (genCode : String) (allowNeg : Bool)
        (H : String → String) (ts tc pt : String) (idv : Nat),
      (applyInvoicePlan db plan genCode allowNeg H ts tc pt).1 = .ok idv →
      ∃ inv : Invoice,
        ((applyInvoicePlan db plan genCode allowNeg H ts tc pt).2).invoices =
          db.invoices ++ [inv] ∧ 0 < inv.total ∧
        inv.total = (((((applyInvoicePlan db plan genCode allowNeg H ts tc
            pt).2).invoice_lines).drop db.invoice_lines.length).map
          (fun l => l.qty * l.unit_price)).sum) := by
  refine ⟨?_, ?_, ?_, ?_⟩
  · intro db u args_kind jref form allowNeg tag he
    rcases unified_invoice_post_frame db u args_kind jref form allowNeg with
      hf | ⟨idv, hsucc⟩
    · exact hf
    · rw [he] at hsucc
      cases hsucc
  · intro db u args_kind jref form allowNeg idv hs
    exact unified_invoice_post_success db u args_kind jref form allowNeg idv hs
  · intro db plan genCode allowNeg H ts tc pt tag he
    rcases applyInvoicePlan_frame db plan genCode allowNeg H ts tc pt with
      hf | ⟨idv, hsucc⟩
    · exact hf
    · rw [he] at hsucc
      cases hsucc
  · intro db plan genCode allowNeg H ts tc pt idv hs
    exact applyInvoicePlan_success db plan genCode allowNeg H ts tc pt idv hs

/-- Witness for C4: a rejected concrete submission (no valid rows, hence a
non-positive total) leaves the database untouched, and the concrete
committed purchase invoice of the fixtures has a positive total equal to
the sum over its lines. -/
theorem C4_non_positive_total_rejected_witness :
    ((unified_invoice_post witnessDB witnessAdmin (some "sales") "INV-9"
        ⟨none, none, "1", "", []⟩ false).1 = .error "no-valid-rows" ∧
      (unified_invoice_post witnessDB witnessAdmin (some "sales") "INV-9"
        ⟨none, none, "1", "", []⟩ false).2 = witnessDB) ∧
    (∃ inv : Invoice,
      ((unified_invoice_post witnessDB witnessAdmin (some "sales") "INV-1"
          witnessPurchaseForm false).2).invoices = witnessDB.invoices ++ [inv] ∧
        0 < inv.total ∧
      inv.total = (((((unified_invoice_post witnessDB witnessAdmin
          (some "sales") "INV-1" witnessPurchaseForm
          false).2).invoice_lines).drop witnessDB.invoice_lines.length).map
        (fun l => l.qty * l.unit_price)).sum) :=
  ⟨⟨by decide,
    C4_non_positive_total_rejected.1 witnessDB witnessAdmin (some "sales")
      "INV-9" ⟨none, none, "1", "", []⟩ false "no-valid-rows" (by decide)⟩,
   C4_non_positive_total_rejected.2.1 witnessDB witnessAdmin (some "sales")
     "INV-1" witnessPurchaseForm false 1 (by rw [run_witness_purchase])⟩

/-- Auxiliary: `setFirstPH` does not change the `(person_id, item_id)` key
sequence. -/
theorem setFirstPH_keys : ∀ (ph : List PriceHistory) (pid iid : Nat) (price : ℚ),
    (setFirstPH ph pid iid price).map (fun r => (r.person_id, r.item_id)) =
      ph.map (fun r => (r.person_id, r.item_id)) := by
  intro ph pid iid price
  induction ph with
  | nil => rfl
  | cons r rest ih =>
      rw [setFirstPH]
      by_cases hm : (r.person_id == pid && r.item_id == iid) = true
      · simp [hm]
      · simp [hm, ih]

/-- Auxiliary: a key absent from the key sequence matches no row. -/
theorem filter_key_nil_of_not_mem :
    ∀ (ph : List PriceHistory) (pid iid : Nat),
      (pid, iid) ∉ ph.map (fun r => (r.person_id, r.item_id)) →
      ph.filter (fun r => r.person_id == pid && r.item_id == iid) = [] := by
  intro ph pid iid h
  refine List.filter_eq_nil_iff.mpr ?_
  intro a ha hmatch
  apply h
  have h2 : a.person_id = pid ∧ a.item_id = iid := by simpa using hmatch
  have h3 : (pid, iid) = (a.person_id, a.item_id) := by rw [h2.1, h2.2]
  rw [h3]
  exact List.mem_map_of_mem _ ha

/-- Auxiliary: on a table with pairwise distinct keys containing the key,
`setFirstPH` leaves exactly one row with that key, carrying the new
price. -/
theorem setFirstPH_filter :
    ∀ (ph : List PriceHistory) (pid iid : Nat) (price : ℚ),
      (ph.map (fun r => (r.person_id, r.item_id))).Nodup →
      ph.any (fun r => r.person_id == pid && r.item_id == iid) = true →
      (((setFirstPH ph pid iid price).filter
          (fun r => r.person_id == pid && r.item_id == iid)).map
        (·.last_price)) = [price] := by
  intro ph pid iid price
  induction ph with
  | nil => intro _ ha; cases ha
  | cons r rest ih =>
      intro hnd ha
      rw [List.map_cons, List.nodup_cons] at hnd
      rw [setFirstPH]
      by_cases hm : (r.person_id == pid && r.item_id == iid) = true
      · rw [if_pos hm]
        have h2 : r.person_id = pid ∧ r.item_id = iid := by simpa using hm
        have hnotmem : (pid, iid) ∉
            rest.map (fun x => (x.person_id, x.item_id)) := by
          rw [← h2.1, ← h2.2]
          exact hnd.1
        have hrest := filter_key_nil_of_not_mem rest pid iid hnotmem
        rw [List.filter_cons]
        have hm' : (({ r with last_price := price } : PriceHistory).person_id == pid &&
            ({ r with last_price := price } : PriceHistory).item_id == iid) = true := hm
        rw [if_pos hm', hrest]
        rfl
      · have hmf : (r.person_id == pid && r.item_id == iid) = false := by
          simpa using hm
        have ha' : rest.any (fun x => x.person_id == pid && x.item_id == iid) = true := by
          rw [List.any_cons, hmf] at ha
          simpa using ha
        rw [if_neg hm, List.filter_cons, if_neg hm]
        exact ih hnd.2 ha'

/-- Auxiliary: the `upsertPH` of the invoice routes leaves exactly one row
with the upserted key, carrying the upserted price, on any table with
pairwise distinct keys. -/
theorem upsertPH_value (ph : List PriceHistory) (pid iid : Nat) (price : ℚ)
    (hnd : (ph.map (fun r => (r.person_id, r.item_id))).Nodup) :
    (((upsertPH ph pid iid price).filter
        (fun r => r.person_id == pid && r.item_id == iid)).map
      (·.last_price)) = [price] := by
  rw [upsertPH]
  by_cases ha : ph.any (fun r => r.person_id == pid && r.item_id == iid) = true
  · simp only [ha, if_true]
    exact setFirstPH_filter ph pid iid price hnd ha
  · simp only [ha, Bool.false_eq_true, if_false]
    have hnone : ∀ a ∈ ph, ¬ (a.person_id == pid && a.item_id == iid) = true := by
      intro a hmem hpa
      exact ha (List.any_eq_true.mpr ⟨a, hmem, hpa⟩)
    have hfil : ph.filter (fun r => r.person_id == pid && r.item_id == iid) = [] :=
      List.filter_eq_nil_iff.mpr hnone
    simp [List.filter_append, hfil]

/-- Auxiliary: `upsertPH` preserves pairwise-distinct keys. -/
theorem upsertPH_keys_nodup (ph : List PriceHistory) (pid iid : Nat)
    (price : ℚ)
    (hnd : (ph.map (fun r => (r.person_id, r.item_id))).Nodup) :
    ((upsertPH ph pid iid price).map
      (fun r => (r.person_id, r.item_id))).Nodup := by
  rw [upsertPH]
  by_cases ha : ph.any (fun r => r.person_id == pid && r.item_id == iid) = true
  · simp only [ha, if_true]
    rw [setFirstPH_keys]
    exact hnd
  · simp only [ha, Bool.false_eq_true, if_false]
    have hnotmem : (pid, iid) ∉ ph.map (fun r => (r.person_id, r.item_id)) := by
      intro hmem
      rcases List.mem_map.mp hmem with ⟨a, hmem2, hkey⟩
      apply ha
      refine List.any_eq_true.mpr ⟨a, hmem2, ?_⟩
      have h1 : a.person_id = pid := congrArg Prod.fst hkey
      have h2 : a.item_id = iid := congrArg Prod.snd hkey
      simp [h1, h2]
    rw [List.map_append, List.nodup_append]
    refine ⟨hnd, by simp, ?_⟩
    intro x hx hy
    simp only [List.map_cons, List.map_nil, List.mem_singleton] at hy
    rw [hy] at hx
    exact hnotmem hx

/-- Auxiliary: the PriceHistory component of the manual route's mutation
loop is one `upsertPH` per accepted row, keyed by the invoice's person,
regardless of invoice kind. -/
theorem commitRows_ph (fk : String) (inv_id pid : Nat) :
    ∀ (rows : List RowItem) (es : List Entity) (ls : List InvoiceLine)
      (ph : List PriceHistory),
      (commitRows fk inv_id pid rows es ls ph).2.2 =
        rows.foldl (fun acc r => upsertPH acc pid r.item.id r.unit_price) ph := by
  intro rows
  induction rows with
  | nil => intro es ls ph; rfl
  | cons r rest ih =>
      intro es ls ph
      rw [commitRows, ih]
      rfl

/-- Auxiliary: the PriceHistory component of the plan mutation loop is one
`upsertPH` per accepted row for sales, and is untouched otherwise. -/
theorem commitPlanLines_ph (kind : String) (inv_id pid : Nat) :
    ∀ (items : List RowItem) (es : List Entity) (ls : List InvoiceLine)
      (ph : List PriceHistory) (tot : ℚ),
      (commitPlanLines kind inv_id pid items es ls ph tot).2.2.1 =
        if kind == "sales" then
          items.foldl (fun acc r => upsertPH acc pid r.item.id r.unit_price) ph
        else ph := by
  intro items
  induction items with
  | nil =>
      intro es ls ph tot
      by_cases hk : (kind == "sales") = true <;> simp [commitPlanLines, hk]
  | cons r rest ih =>
      intro es ls ph tot
      rw [commitPlanLines, ih]
      by_cases hk : (kind == "sales") = true <;> simp [hk]

/-- Auxiliary: a successful manual-route commit appends one invoice and a
set of lines, and folds one PriceHistory upsert per accepted row — keyed by
the invoice's person and the row's item, at the row's unit price —
regardless of the invoice kind. -/
theorem unified_invoice_post_commit_shape (db : DBState) (u : User)
    (args_kind : Option String) (jref : String) (form : InvoiceForm)
    (allowNeg : Bool) (idv : Nat)
    (hs : (unified_invoice_post db u args_kind jref form allowNeg).1 = .success idv) :
    ∃ (inv : Invoice) (rows : List RowItem),
      ((unified_invoice_post db u args_kind jref form allowNeg).2).invoices =
        db.invoices ++ [inv] ∧
      ((unified_invoice_post db u args_kind jref form allowNeg).2).invoice_lines =
        db.invoice_lines ++ rows.map (fun r =>
          { invoice_id := inv.id, item_id := r.item.id, qty := r.qty,
            unit_price := r.unit_price, line_total := r.qty * r.unit_price }) ∧
      ((unified_invoice_post db u args_kind jref form allowNeg).2).price_history =
        rows.foldl (fun acc r =>
          upsertPH acc inv.person_id r.item.id r.unit_price) db.price_history := by
  by_cases h : ensure_permission_allows u (kindResolved args_kind)
  · simp only [unified_invoice_post, h, not_true_eq_false, if_false] at hs ⊢
    rcases hp : resolvePerson db form.person_token form.person_code with _ | person
    · simp [hp] at hs
    · rcases hr : processRows db (formKind (kindResolved args_kind) form.invoice_kind)
          allowNeg form.rows [] [] with tag | rows
      · simp [hp, hr] at hs
      · by_cases he : rows.isEmpty
        · simp [hp, hr, he] at hs
        · by_cases ht : ((rows.map (fun r => r.unit_price * r.qty)).sum : ℚ) ≤ 0
          · simp [hp, hr, he, ht] at hs
          · have ht0 : ¬ (((rows.map (fun r => r.unit_price * r.qty)).sum : ℚ)
                - 0 + 0 ≤ 0) := by simpa using ht
            simp only [hp, hr]
            rw [if_neg (by simpa using he), if_neg ht0]
            refine ⟨⟨nextInvoiceId db,
              manualInvoiceNumber db (if kindResolved args_kind == "sales"
                then jref else purchaseGeneratedNumber db) form,
              person.id, formKind (kindResolved args_kind) form.invoice_kind,
              0, 0, ((rows.map (fun r => r.unit_price * r.qty)).sum : ℚ) - 0 + 0⟩,
              rows, rfl, ?_, ?_⟩
            · exact commitRows_lines _ _ _ rows _ _ _
            · exact commitRows_ph _ _ _ rows _ _ _
  · simp only [unified_invoice_post, eq_false_of_ne_true h, not_false_eq_true,
      if_true] at hs
    simp at hs

/-- Auxiliary: a purchase plan applied through the AI path never touches
the PriceHistory table, whatever the outcome. -/
theorem applyInvoicePlan_purchase_ph (db : DBState) (plan : InvoicePlan)
    (genCode : String) (allowNeg : Bool) (H : String → String) (ts tc pt : String)
    (hk : plan.kind.getD "sales" = "purchase") :
    ((applyInvoicePlan db plan genCode allowNeg H ts tc pt).2).price_history =
      db.price_history := by
  rcases hp : resolvePlanPartner db plan genCode with tag | pair
  · simp [applyInvoicePlan, hp]
  · rcases pair with ⟨partner, db1⟩
    rcases hc : collectPlanItems (plan.kind.getD "sales") allowNeg genCode
        plan.items db1 [] with tag | pair2
    · simp [applyInvoicePlan, hp, hc]
    · rcases pair2 with ⟨items, db2⟩
      have hfr : SameButEntities db db2 :=
        sameButEntities_trans (resolvePlanPartner_frame _ _ _ _ _ hp)
          (collectPlanItems_frame _ _ _ _ _ _ _ _ hc)
      by_cases he : items.isEmpty
      · simp [applyInvoicePlan, hp, hc, he]
      · by_cases ht : (commitPlanLines (plan.kind.getD "sales")
            (nextInvoiceId db2) partner.id items db2.entities
            db2.invoice_lines db2.price_history 0).2.2.2 ≤ (0 : ℚ)
        · simp [applyInvoicePlan, hp, hc, he, ht]
        · simp only [applyInvoicePlan, hp, hc]
          simp only [he, Bool.false_eq_true, if_false, ht, ite_false]
          rw [commitPlanLines_ph, hk]
          simp only [show (("purchase" == "sales") = false) from rfl,
            Bool.false_eq_true, if_false]
          exact hfr.2.2.1

/-- Auxiliary: a successful sales plan applied through the AI path appends
one invoice and its lines, and folds one PriceHistory upsert per accepted
row, keyed by the committed invoice's partner and the row's item, at the
row's unit price. -/
theorem applyInvoicePlan_sales_commit_shape (db : DBState) (plan : InvoicePlan)
    (genCode : String) (allowNeg : Bool) (H : String → String) (ts tc pt : String)
    (idv : Nat) (hk : plan.kind.getD "sales" = "sales")
    (hs : (applyInvoicePlan db plan genCode allowNeg H ts tc pt).1 = .ok idv) :
    ∃ (inv : Invoice) (rows : List RowItem),
      ((applyInvoicePlan db plan genCode allowNeg H ts tc pt).2).invoices =
        db.invoices ++ [inv] ∧
      ((applyInvoicePlan db plan genCode allowNeg H ts tc pt).2).invoice_lines =
        db.invoice_lines ++ rows.map (fun r =>
          { invoice_id := inv.id, item_id := r.item.id, qty := r.qty,
            unit_price := r.unit_price, line_total := r.qty * r.unit_price }) ∧
      ((applyInvoicePlan db plan genCode allowNeg H ts tc pt).2).price_history =
        rows.foldl (fun acc r =>
          upsertPH acc inv.person_id r.item.id r.unit_price) db.price_history := by
  rcases hp : resolvePlanPartner db plan genCode with tag | pair
  · simp [applyInvoicePlan, hp] at hs
  · rcases pair with ⟨partner, db1⟩
    rcases hc : collectPlanItems (plan.kind.getD "sales") allowNeg genCode
        plan.items db1 [] with tag | pair2
    · simp [applyInvoicePlan, hp, hc] at hs
    · rcases pair2 with ⟨items, db2⟩
      have hfr : SameButEntities db db2 :=
        sameButEntities_trans (resolvePlanPartner_frame _ _ _ _ _ hp)
          (collectPlanItems_frame _ _ _ _ _ _ _ _ hc)
      by_cases he : items.isEmpty
      · simp [applyInvoicePlan, hp, hc, he] at hs
      · by_cases ht : (commitPlanLines (plan.kind.getD "sales")
            (nextInvoiceId db2) partner.id items db2.entities
            db2.invoice_lines db2.price_history 0).2.2.2 ≤ (0 : ℚ)
        · simp [applyInvoicePlan, hp, hc, he, ht] at hs
        · refine ⟨⟨nextInvoiceId db2, planInvoiceNumber db1 plan, partner.id,
            plan.kind.getD "sales", 0, 0,
            (commitPlanLines (plan.kind.getD "sales") (nextInvoiceId db2)
              partner.id items db2.entities db2.invoice_lines
              db2.price_history 0).2.2.2⟩, items, ?_, ?_, ?_⟩
          · simp only [applyInvoicePlan, hp, hc]
            simp only [he, Bool.false_eq_true, if_false, ht, ite_false]
            rw [hfr.1]
          · simp only [applyInvoicePlan, hp, hc]
            simp only [he, Bool.false_eq_true, if_false, ht, ite_false]
            rw [commitPlanLines_lines, hfr.2.1]
          · simp only [applyInvoicePlan, hp, hc]
            simp only [he, Bool.false_eq_true, if_false, ht, ite_false]
            rw [commitPlanLines_ph, hk]
            simp only [show (("sales" == "sales") = true) from rfl, if_true]
            rw [hfr.2.2.1]

/-- C1 (counterexample): a successfully committed purchase invoice through
the manual unified invoice route does insert a PriceHistory row — the
concrete one-line purchase commit of the fixtures starts from an empty
`price_history` table and ends with the row `(person 1, item 2, 100)`. -/
theorem C1_manual_purchase_touches_price_history :
    (unified_invoice_post witnessDB witnessAdmin (some "sales") "INV-1"
      witnessPurchaseForm false).1 = .success 1 ∧
    witnessDB.price_history = [] ∧
    ((unified_invoice_post witnessDB witnessAdmin (some "sales") "INV-1"
      witnessPurchaseForm false).2).price_history = [⟨1, 2, 100⟩] :=
  ⟨by rw [run_witness_purchase], rfl, by rw [run_witness_purchase]; rfl⟩

/-- C1 (amended): in the AI-assistant apply path purchase invoices never
touch PriceHistory, and a committed sales plan folds exactly one
`upsertPH` per line, keyed by the invoice's partner and the line's item at
the line's unit price; in the manual unified route, however, a committed
invoice of either kind folds the same per-line upsert; and each single
upsert leaves exactly one row with the upserted key, carrying the upserted
price, on any table with pairwise distinct keys (the schema's unique
constraint). -/
theorem C1_price_history_effects :
    (∀ (db : DBState) (plan : InvoicePlan) (genCode : String)
        (allowNeg : Bool) (H : String → String) (ts tc pt : String),
      plan.kind.getD "sales" = "purchase" →
      ((applyInvoicePlan db plan genCode allowNeg H ts tc pt).2).price_history =
        db.price_history) ∧
    (∀ (db : DBState) (plan : InvoicePlan) (genCode : String)
        (allowNeg : Bool) (H : String → String) (ts tc pt : String) (idv : Nat),
      plan.kind.getD "sales" = "sales" →
      (applyInvoicePlan db plan genCode allowNeg H ts tc pt).1 = .ok idv →
      ∃ (inv : Invoice) (rows : List RowItem),
        ((applyInvoicePlan db plan genCode allowNeg H ts tc pt).2).invoices =
          db.invoices ++ [inv] ∧
        ((applyInvoicePlan db plan genCode allowNeg H ts tc pt).2).invoice_lines =
          db.invoice_lines ++ rows.map (fun r =>
            { invoice_id := inv.id, item_id := r.item.id, qty := r.qty,
              unit_price := r.unit_price, line_total := r.qty * r.unit_price }) ∧
        ((applyInvoicePlan db plan genCode allowNeg H ts tc pt).2).price_history =
          rows.foldl (fun acc r =>
            upsertPH acc inv.person_id r.item.id r.unit_price)
            db.price_history) ∧
    (∀ (db : DBState) (u : User) (args_kind : Option String) (jref : String)
        (form : InvoiceForm) (allowNeg : Bool) (idv : Nat),
      (unified_invoice_post db u args_kind jref form allowNeg).1 = .success idv →
      ∃ (inv : Invoice) (rows : List RowItem),
        ((unified_invoice_post db u args_kind jref form allowNeg).2).invoices =
          db.invoices ++ [inv] ∧
        ((unified_invoice_post db u args_kind jref form allowNeg).2).invoice_lines =
          db.invoice_lines ++ rows.map (fun r =>
            { invoice_id := inv.id, item_id := r.item.id, qty := r.qty,
              unit_price := r.unit_price, line_total := r.qty * r.unit_price }) ∧
        ((unified_invoice_post db u args_kind jref form allowNeg).2).price_history =
          rows.foldl (fun acc r =>
            upsertPH acc inv.person_id r.item.id r.unit_price)
            db.price_history) ∧
    (∀ (ph : List PriceHistory) (pid iid : Nat) (price : ℚ),
      (ph.map (fun r => (r.person_id, r.item_id))).Nodup →
      ((((upsertPH ph pid iid price).filter
          (fun r => r.person_id == pid && r.item_id == iid)).map
        (·.last_price)) = [price] ∧
        ((upsertPH ph pid iid price).map
          (fun r => (r.person_id, r.item_id))).Nodup)) :=
  ⟨fun db plan genCode allowNeg H ts tc pt hk =>
    applyInvoicePlan_purchase_ph db plan genCode allowNeg H ts tc pt hk,
   fun db plan genCode allowNeg H ts tc pt idv hk hs =>
    applyInvoicePlan_sales_commit_shape db plan genCode allowNeg H ts tc pt idv hk hs,
   fun db u args_kind jref form allowNeg idv hs =>
    unified_invoice_post_commit_shape db u args_kind jref form allowNeg idv hs,
   fun ph pid iid price hnd =>
    ⟨upsertPH_value ph pid iid price hnd, upsertPH_keys_nodup ph pid iid price hnd⟩⟩

/-- Witness for C1: the amended theorem instantiated at the concrete
fixtures — the committed purchase run satisfies the per-line upsert shape,
and a single upsert on the empty table leaves exactly the upserted row. -/
theorem C1_price_history_effects_witness :
    (∃ (inv : Invoice) (rows : List RowItem),
      ((unified_invoice_post witnessDB witnessAdmin (some "sales") "INV-1"
          witnessPurchaseForm false).2).invoices =
        witnessDB.invoices ++ [inv] ∧
      ((unified_invoice_post witnessDB witnessAdmin (some "sales") "INV-1"
          witnessPurchaseForm false).2).invoice_lines =
        witnessDB.invoice_lines ++ rows.map (fun r =>
          { invoice_id := inv.id, item_id := r.item.id, qty := r.qty,
            unit_price := r.unit_price, line_total := r.qty * r.unit_price }) ∧
      ((unified_invoice_post witnessDB witnessAdmin (some "sales") "INV-1"
          witnessPurchaseForm false).2).price_history =
        rows.foldl (fun acc r =>
          upsertPH acc inv.person_id r.item.id r.unit_price)
          witnessDB.price_history) ∧
    ((((upsertPH [] 1 2 100).filter
        (fun r => r.person_id == 1 && r.item_id == 2)).map
      (·.last_price)) = [100] ∧
      ((upsertPH [] 1 2 100).map
        (fun r => (r.person_id, r.item_id))).Nodup) :=
  ⟨C1_price_history_effects.2.2.1 witnessDB witnessAdmin (some "sales")
    "INV-1" witnessPurchaseForm false 1 (by rw [run_witness_purchase]),
   C1_price_history_effects.2.2.2 [] 1 2 100 (by decide)⟩

/-- C5: a cheque cash document commits only with an active bank cash box
and a 16-digit stripped cheque number; on success the cheque metadata is
persisted with the stripped number; and every committed non-cheque
document stores null in all cheque fields. -/
theorem C5_unified_cash_cheque :
    ∀ (db : DBState) (u : User) (args_kind : Option String) (path gen : String)
      (form : CashForm),
      (cashMethod form.method = "cheque" →
        ((¬ ∃ cb, resolveCashbox db form.cashbox_id = some cb ∧ cb.kind = "bank") ∨
          (digitsOnly form.cheque_number).length ≠ 16) →
        (∀ doc, (unified_cash_post db u args_kind path gen form).1 ≠ .success doc) ∧
        (unified_cash_post db u args_kind path gen form).2 = db) ∧
      (∀ doc, (unified_cash_post db u args_kind path gen form).1 = .success doc →
        doc.method = "cheque" →
        doc.cheque_number = some (digitsOnly form.cheque_number) ∧
        (digitsOnly form.cheque_number).length = 16 ∧
        (∃ cb, resolveCashbox db form.cashbox_id = some cb ∧ cb.kind = "bank" ∧
          doc.cashbox_id = some cb.id) ∧
        doc.cheque_bank = form.cheque_bank ∧
        doc.cheque_branch = form.cheque_branch ∧
        doc.cheque_account = form.cheque_account ∧
        doc.cheque_owner = form.cheque_owner ∧
        doc.cheque_due_date = form.cheque_due_date ∧
        ((unified_cash_post db u args_kind path gen form).2).cash_docs =
          db.cash_docs ++ [doc]) ∧
      (∀ doc, (unified_cash_post db u args_kind path gen form).1 = .success doc →
        doc.method ≠ "cheque" →
        doc.cheque_number = none ∧ doc.cheque_bank = none ∧
        doc.cheque_branch = none ∧ doc.cheque_account = none ∧
        doc.cheque_owner = none ∧ doc.cheque_due_date = none) := by
  intro db u args_kind path gen form
  by_cases hperm : ensure_permission_allows u (cashKindResolved args_kind path)
  · rcases hp : resolvePerson db form.person_token form.person_code with _ | person
    · have herr : (∀ doc, (unified_cash_post db u args_kind path gen form).1 ≠
          .success doc) ∧ (unified_cash_post db u args_kind path gen form).2 = db := by
        constructor
        · intro doc hdoc
          simp [unified_cash_post, hperm, hp] at hdoc
        · simp [unified_cash_post, hperm, hp]
      exact ⟨fun _ _ => herr, fun doc hdoc => absurd hdoc (herr.1 doc),
        fun doc hdoc => absurd hdoc (herr.1 doc)⟩
    · by_cases hamt : form.amount ≤ 0
      · have herr : (∀ doc, (unified_cash_post db u args_kind path gen form).1 ≠
            .success doc) ∧ (unified_cash_post db u args_kind path gen form).2 = db := by
          constructor
          · intro doc hdoc
            simp [unified_cash_post, hperm, hp, hamt] at hdoc
          · simp [unified_cash_post, hperm, hp, hamt]
        exact ⟨fun _ _ => herr, fun doc hdoc => absurd hdoc (herr.1 doc),
          fun doc hdoc => absurd hdoc (herr.1 doc)⟩
      · by_cases hm : cashMethod form.method = "cheque"
        · rcases hcb : resolveCashbox db form.cashbox_id with _ | cb
          · have herr : (∀ doc, (unified_cash_post db u args_kind path gen form).1 ≠
                .success doc) ∧
                (unified_cash_post db u args_kind path gen form).2 = db := by
              constructor
              · intro doc hdoc
                simp [unified_cash_post, hperm, hp, hamt, hcb, hm] at hdoc
              · simp [unified_cash_post, hperm, hp, hamt, hcb, hm]
            exact ⟨fun _ _ => herr, fun doc hdoc => absurd hdoc (herr.1 doc),
              fun doc hdoc => absurd hdoc (herr.1 doc)⟩
          · by_cases hbank : cb.kind = "bank"
            · by_cases hlen : (digitsOnly form.cheque_number).length = 16
              · have hne : (digitsOnly form.cheque_number == "") = false := by
                  rcases hq : digitsOnly form.cheque_number with ⟨l⟩
                  cases l with
                  | nil =>
                      rw [hq] at hlen
                      simp at hlen
                  | cons c cs => rfl
                refine ⟨fun hchq hbad => ?_, fun doc hdoc hdm => ?_,
                  fun doc hdoc hdm => ?_⟩
                · rcases hbad with hbad | hbad
                  · exact absurd (⟨cb, rfl, hbank⟩ :
                      ∃ cb2, some cb = some cb2 ∧ cb2.kind = "bank") hbad
                  · exact absurd hlen hbad
                · simp [unified_cash_post, hperm, hp, hamt, hcb, hm, hbank,
                    hlen, hne] at hdoc
                  rw [← hdoc]
                  refine ⟨by simp [hm, hne], hlen, ⟨cb, rfl, hbank, by simp⟩,
                    by simp [hm], by simp [hm], by simp [hm], by simp [hm],
                    by simp [hm], ?_⟩
                  simp [unified_cash_post, hperm, hp, hamt, hcb, hm, hbank,
                    hlen, hne, ← hdoc]
                · simp [unified_cash_post, hperm, hp, hamt, hcb, hm, hbank,
                    hlen, hne] at hdoc
                  rw [← hdoc] at hdm
                  simp [hm] at hdm
              · have herr : (∀ doc, (unified_cash_post db u args_kind path gen
                    form).1 ≠ .success doc) ∧
                    (unified_cash_post db u args_kind path gen form).2 = db := by
                  constructor
                  · intro doc hdoc
                    simp [unified_cash_post, hperm, hp, hamt, hcb, hm, hbank, hlen] at hdoc
                  · simp [unified_cash_post, hperm, hp, hamt, hcb, hm, hbank, hlen]
                exact ⟨fun _ _ => herr, fun doc hdoc => absurd hdoc (herr.1 doc),
                  fun doc hdoc => absurd hdoc (herr.1 doc)⟩
            · have herr : (∀ doc, (unified_cash_post db u args_kind path gen
                  form).1 ≠ .success doc) ∧
                  (unified_cash_post db u args_kind path gen form).2 = db := by
                constructor
                · intro doc hdoc
                  simp [unified_cash_post, hperm, hp, hamt, hcb, hm, hbank] at hdoc
                · simp [unified_cash_post, hperm, hp, hamt, hcb, hm, hbank]
              exact ⟨fun _ _ => herr, fun doc hdoc => absurd hdoc (herr.1 doc),
                fun doc hdoc => absurd hdoc (herr.1 doc)⟩
        · refine ⟨fun hchq _ => absurd hchq hm, fun doc hdoc hdm => ?_,
            fun doc hdoc _ => ?_⟩
          · simp [unified_cash_post, hperm, hp, hamt, hm] at hdoc
            rw [← hdoc] at hdm
            simp [hm] at hdm
          · simp [unified_cash_post, hperm, hp, hamt, hm] at hdoc
            rw [← hdoc]
            simp [hm]
  · have herr : (∀ doc, (unified_cash_post db u args_kind path gen form).1 ≠
        .success doc) ∧ (unified_cash_post db u args_kind path gen form).2 = db := by
      constructor
      · intro doc hdoc
        simp only [unified_cash_post, eq_false_of_ne_true hperm,
          not_false_eq_true, if_true] at hdoc
        simp at hdoc
      · simp only [unified_cash_post, eq_false_of_ne_true hperm,
          Bool.false_eq_true, not_false_eq_true, if_true]
    exact ⟨fun _ _ => herr, fun doc hdoc => absurd hdoc (herr.1 doc),
      fun doc hdoc => absurd hdoc (herr.1 doc)⟩

/-- Auxiliary: the concrete cheque submission of the fixtures commits and
produces `witnessCashDBAfter`. -/
theorem run_witness_cheque :
    unified_cash_post witnessCashDB witnessAdmin none "/receive" "RCV-1"
      witnessChequeForm = (.success witnessChequeDoc, witnessCashDBAfter) := by
  have hp : resolvePerson witnessCashDB "1" "" =
      some ⟨1, "person", "100", "Ali", 0, 0⟩ := by decide
  simp only [unified_cash_post, hp]
  norm_num +decide [cashKindResolved, ensure_permission_allows, is_admin,
    cashMethod, resolveCashbox, digitsOnly, isDigits, toNatD, pyStrip, pyLower,
    strContains, listContainsSub, updateFirstEntity, nextCashDocId,
    witnessCashDB, witnessChequeForm, witnessChequeDoc, witnessCashDBAfter,
    witnessAdmin, List.find?]

/-- Witness for C5: the theorem instantiated at concrete inputs — the
three-digit cheque number is rejected with the state untouched, and the
committed 16-digit cheque persists its metadata. -/
theorem C5_unified_cash_cheque_witness :
    (cashMethod witnessBadChequeForm.method = "cheque" ∧
      (digitsOnly witnessBadChequeForm.cheque_number).length ≠ 16 ∧
      (∀ doc, (unified_cash_post witnessCashDB witnessAdmin none "/receive"
        "RCV-1" witnessBadChequeForm).1 ≠ .success doc) ∧
      (unified_cash_post witnessCashDB witnessAdmin none "/receive" "RCV-1"
        witnessBadChequeForm).2 = witnessCashDB) ∧
    (witnessChequeDoc.cheque_number =
        some (digitsOnly witnessChequeForm.cheque_number) ∧
      (digitsOnly witnessChequeForm.cheque_number).length = 16 ∧
      (∃ cb, resolveCashbox witnessCashDB witnessChequeForm.cashbox_id =
          some cb ∧ cb.kind = "bank" ∧ witnessChequeDoc.cashbox_id = some cb.id) ∧
      witnessChequeDoc.cheque_bank = witnessChequeForm.cheque_bank ∧
      witnessChequeDoc.cheque_branch = witnessChequeForm.cheque_branch ∧
      witnessChequeDoc.cheque_account = witnessChequeForm.cheque_account ∧
      witnessChequeDoc.cheque_owner = witnessChequeForm.cheque_owner ∧
      witnessChequeDoc.cheque_due_date = witnessChequeForm.cheque_due_date ∧
      ((unified_cash_post witnessCashDB witnessAdmin none "/receive" "RCV-1"
        witnessChequeForm).2).cash_docs =
        witnessCashDB.cash_docs ++ [witnessChequeDoc]) :=
  ⟨⟨by decide, by decide,
    (C5_unified_cash_cheque witnessCashDB witnessAdmin none "/receive" "RCV-1"
      witnessBadChequeForm).1 (by decide) (Or.inr (by decide))⟩,
   (C5_unified_cash_cheque witnessCashDB witnessAdmin none "/receive" "RCV-1"
      witnessChequeForm).2.1 witnessChequeDoc (by rw [run_witness_cheque])
     (by decide)⟩

/-- Auxiliary: in an entity table with pairwise-distinct ids, a member row
is the one its id finds. -/
theorem find_id_of_mem {l : List Entity} {e : Entity}
    (hnd : (l.map (fun x => x.id)).Nodup) (hm : e ∈ l) :
    l.find? (fun x => x.id == e.id) = some e := by
  induction l with
  | nil => cases hm
  | cons x t ih =>
      rw [List.map_cons, List.nodup_cons] at hnd
      rcases List.mem_cons.mp hm with rfl | hm'
      · simp [List.find?]
      · have hx : (x.id == e.id) = false := by
          refine beq_eq_false_iff_ne.mpr fun h => hnd.1 ?_
          rw [h]
          exact List.mem_map.mpr ⟨e, hm', rfl⟩
        simp only [List.find?, hx]
        exact ih hnd.2 hm'

/-- Auxiliary: under pairwise-distinct entity ids, every item resolved by
the row loop carries the stock the database records for its id. -/
theorem lookupRowItem_stock {db : DBState} {iid icode : String} {item : Entity}
    (hnd : (db.entities.map (fun e => e.id)).Nodup)
    (h : lookupRowItem db iid icode = some item) :
    stockOf db item.id = item.stock_qty := by
  have hfe : findEntity db item.id = some item := by
    rcases hb : (if isDigits iid then findEntity db (toNatD iid) else none)
        with _ | e
    · have h' : (if icode ≠ "" then
          db.entities.find? (fun e => e.etype == "item" && e.code == icode)
          else none) = some item := by
        rw [lookupRowItem, hb] at h
        exact h
      by_cases hc : icode ≠ ""
      · rw [if_pos hc] at h'
        have hm := List.mem_of_find?_eq_some h'
        exact find_id_of_mem hnd hm
      · rw [if_neg hc] at h'
        cases h'
    · have h' : e = item := by
        have h2 : some e = some item := by
          rw [lookupRowItem, hb] at h
          exact h
        exact Option.some.inj h2
      subst h'
      by_cases hd : isDigits iid
      · rw [if_pos hd] at hb
        simp only [findEntity] at hb ⊢
        have hp := List.find?_some hb
        have hid : e.id = toNatD iid := by simpa using hp
        rw [hid]
        exact hb
      · rw [if_neg hd] at hb
        cases hb
  simp [stockOf, hfe]

/-- Auxiliary: `find?` on a filtered pending list agrees with the raw list
when the sought key is not the filtered-out one. -/
theorem find_filter_ne (pending : List (Nat × ℚ)) {i j : Nat} (hij : i ≠ j) :
    (pending.filter (fun kv => kv.1 ≠ j)).find? (fun kv => kv.1 == i) =
      pending.find? (fun kv => kv.1 == i) := by
  induction pending with
  | nil => rfl
  | cons kv t ih =>
      by_cases hk : kv.1 = j
      · have h1 : (decide (kv.1 ≠ j)) = false := by simp [hk]
        have h2 : (kv.1 == i) = false := by
          refine beq_eq_false_iff_ne.mpr fun h => hij ?_
          rw [← h, hk]
        simp only [List.filter_cons, h1, Bool.false_eq_true, if_false,
          List.find?, h2]
        exact ih
      · have h1 : (decide (kv.1 ≠ j)) = true := by simp [hk]
        simp only [List.filter_cons, h1, if_true, List.find?]
        cases h2 : (kv.1 == i) with
        | true => rfl
        | false => exact ih

/-- Auxiliary: reading the pending dict after a write returns the written
value at the written key and is unchanged elsewhere. -/
theorem lookupPending_setPending (pending : List (Nat × ℚ)) (j : Nat) (v : ℚ)
    (i : Nat) (d : ℚ) :
    lookupPending (setPending pending j v) i d =
      if i = j then v else lookupPending pending i d := by
  by_cases hij : i = j
  · subst hij
    simp [lookupPending, setPending]
  · rw [if_neg hij]
    have h1 : (j == i) = false := beq_eq_false_iff_ne.mpr fun h => hij h.symm
    simp only [lookupPending, setPending, List.find?, h1,
      find_filter_ne pending hij]

/-- Auxiliary: appending an accepted row adds its quantity to the charge
against its own item and leaves other items' charges alone. -/
theorem qtySum_append (rows : List RowItem) (r : RowItem) (i : Nat) :
    qtySum (rows ++ [r]) i =
      qtySum rows i + (if r.item.id = i then r.qty else 0) := by
  by_cases h : r.item.id = i
  · simp [qtySum, List.filter_append, h]
  · simp [qtySum, List.filter_append, h]

/-- Auxiliary: one unfolding of the row loop when the row's item does not
resolve. -/
theorem processRows_cons_none {db : DBState} {fk : String} {allowNeg : Bool}
    {fr : FormRow} {rest : List FormRow} {rows0 : List RowItem}
    {pending : List (Nat × ℚ)}
    (hli : lookupRowItem db fr.item_id fr.item_code = none) :
    processRows db fk allowNeg (fr :: rest) rows0 pending =
      (if rows0.length ≥ 15 then .ok rows0
       else processRows db fk allowNeg rest rows0 pending) := by
  rw [processRows, hli]

/-- Auxiliary: one unfolding of the row loop when the row's item resolves. -/
theorem processRows_cons_some {db : DBState} {fk : String} {allowNeg : Bool}
    {fr : FormRow} {rest : List FormRow} {rows0 : List RowItem}
    {pending : List (Nat × ℚ)} {item : Entity}
    (hli : lookupRowItem db fr.item_id fr.item_code = some item) :
    processRows db fk allowNeg (fr :: rest) rows0 pending =
      (if item.etype == "item" ∧ fr.qty > 0 ∧ fr.unit_price ≥ 0 then
        if fk == "sales" ∧ ¬allowNeg then
          (if lookupPending pending item.id item.stock_qty - fr.qty < -stockEps
           then .error "insufficient-stock"
           else
            (if (rows0 ++ [(⟨item, fr.unit_price, fr.qty⟩ : RowItem)]).length ≥ 15 then
              .ok (rows0 ++ [⟨item, fr.unit_price, fr.qty⟩])
             else processRows db fk allowNeg rest
              (rows0 ++ [⟨item, fr.unit_price, fr.qty⟩])
              (setPending pending item.id
                (lookupPending pending item.id item.stock_qty - fr.qty))))
        else if fk == "sales" then
          (if (rows0 ++ [(⟨item, fr.unit_price, fr.qty⟩ : RowItem)]).length ≥ 15 then
            .ok (rows0 ++ [⟨item, fr.unit_price, fr.qty⟩])
           else processRows db fk allowNeg rest
            (rows0 ++ [⟨item, fr.unit_price, fr.qty⟩])
            (setPending pending item.id
              (lookupPending pending item.id item.stock_qty - fr.qty)))
        else
          (if (rows0 ++ [(⟨item, fr.unit_price, fr.qty⟩ : RowItem)]).length ≥ 15 then
            .ok (rows0 ++ [⟨item, fr.unit_price, fr.qty⟩])
           else processRows db fk allowNeg rest
            (rows0 ++ [⟨item, fr.unit_price, fr.qty⟩]) pending)
      else
        (if rows0.length ≥ 15 then .ok rows0
         else processRows db fk allowNeg rest rows0 pending)) := by
  rw [processRows, hli]

/-- Auxiliary: when the guarded sales run accepts, the permissive run
returns the very same rows, those rows extend the accumulator, and no newly
accepted row drives the running stock projection below the tolerance. -/
theorem processRows_sales_ok {db : DBState}
    (hnd : (db.entities.map (fun e => e.id)).Nodup)
    (frs : List FormRow) :
    ∀ (rows0 : List RowItem) (pending : List (Nat × ℚ)) (rows : List RowItem),
      (∀ i, lookupPending pending i (stockOf db i) =
        stockOf db i - qtySum rows0 i) →
      processRows db "sales" false frs rows0 pending = .ok rows →
      processRows db "sales" true frs rows0 pending = .ok rows ∧
      (∃ ext, rows = rows0 ++ ext) ∧
      (∀ k : Fin rows.length, rows0.length ≤ k.val →
        -stockEps ≤ stockOf db (rows.get k).item.id -
          qtySum (rows.take (k.val + 1)) (rows.get k).item.id) := by
  induction frs with
  | nil =>
      intro rows0 pending rows hinv h
      rw [processRows] at h
      cases h
      exact ⟨by rw [processRows], ⟨[], by simp⟩,
        fun k hk => absurd k.isLt (not_lt.mpr hk)⟩
  | cons fr rest ih =>
      intro rows0 pending rows hinv h
      rcases hli : lookupRowItem db fr.item_id fr.item_code with _ | item
      · rw [processRows_cons_none hli] at h
        by_cases hlen : rows0.length ≥ 15
        · rw [if_pos hlen] at h
          cases h
          exact ⟨by rw [processRows_cons_none hli, if_pos hlen],
            ⟨[], by simp⟩, fun k hk => absurd k.isLt (not_lt.mpr hk)⟩
        · rw [if_neg hlen] at h
          obtain ⟨htrue, hext, hineq⟩ := ih rows0 pending rows hinv h
          exact ⟨by rw [processRows_cons_none hli, if_neg hlen]; exact htrue,
            hext, hineq⟩
      · rw [processRows_cons_some hli] at h
        by_cases hval : item.etype == "item" ∧ fr.qty > 0 ∧ fr.unit_price ≥ 0
        · have hcF : (("sales" : String) == "sales") ∧
              ¬((false : Bool) = true) := by decide
          rw [if_pos hval, if_pos hcF] at h
          have hstock : item.stock_qty = stockOf db item.id :=
            (lookupRowItem_stock hnd hli).symm
          by_cases hst : lookupPending pending item.id item.stock_qty - fr.qty <
              -stockEps
          · rw [if_pos hst] at h
            cases h
          · rw [if_neg hst] at h
            have hbase : lookupPending pending item.id item.stock_qty =
                stockOf db item.id - qtySum rows0 item.id := by
              rw [hstock]
              exact hinv item.id
            have hcT : ¬((("sales" : String) == "sales") ∧
                ¬((true : Bool) = true)) := by decide
            have hcS : (("sales" : String) == "sales") := by decide
            have hinv' : ∀ i,
                lookupPending (setPending pending item.id
                  (lookupPending pending item.id item.stock_qty - fr.qty)) i
                  (stockOf db i) =
                stockOf db i -
                  qtySum (rows0 ++ [(⟨item, fr.unit_price, fr.qty⟩ : RowItem)])
                    i := by
              intro i
              rw [lookupPending_setPending, qtySum_append]
              by_cases hi : i = item.id
              · subst hi
                rw [if_pos rfl, if_pos rfl, hbase]
                dsimp only
                ring
              · rw [if_neg hi, if_neg (fun hri => hi hri.symm), add_zero]
                exact hinv i
            have hnew : -stockEps ≤ stockOf db item.id -
                (qtySum rows0 item.id + fr.qty) := by
              have h1 := not_lt.mp hst
              rw [hbase] at h1
              linarith
            by_cases hlen :
                (rows0 ++ [(⟨item, fr.unit_price, fr.qty⟩ : RowItem)]).length ≥
                  15
            · rw [if_pos hlen] at h
              cases h
              refine ⟨?_, ⟨[⟨item, fr.unit_price, fr.qty⟩], rfl⟩, ?_⟩
              · rw [processRows_cons_some hli, if_pos hval, if_neg hcT,
                  if_pos hcS, if_pos hlen]
              · intro k hk
                have hkl : k.val < rows0.length + 1 :=
                  lt_of_lt_of_le k.isLt (by simp)
                have hkv : k.val = rows0.length := by omega
                have hget : (rows0 ++
                    [(⟨item, fr.unit_price, fr.qty⟩ : RowItem)]).get k =
                    (⟨item, fr.unit_price, fr.qty⟩ : RowItem) := by
                  rw [List.get_eq_getElem,
                    List.getElem_append_right (show rows0.length ≤ k.val by
                      omega)]
                  simp [hkv]
                have htake : ((rows0 ++
                    [(⟨item, fr.unit_price, fr.qty⟩ : RowItem)]).take
                      (k.val + 1)) =
                    rows0 ++ [(⟨item, fr.unit_price, fr.qty⟩ : RowItem)] := by
                  rw [hkv, show rows0.length + 1 =
                    (rows0 ++
                      [(⟨item, fr.unit_price, fr.qty⟩ : RowItem)]).length by
                        simp, List.take_length]
                rw [hget, htake]
                simpa [qtySum_append] using hnew
            · rw [if_neg hlen] at h
              obtain ⟨htrue, ⟨ext, hext⟩, hineq⟩ :=
                ih (rows0 ++ [(⟨item, fr.unit_price, fr.qty⟩ : RowItem)])
                  (setPending pending item.id
                    (lookupPending pending item.id item.stock_qty - fr.qty))
                  rows hinv' h
              subst hext
              refine ⟨?_, ⟨(⟨item, fr.unit_price, fr.qty⟩ : RowItem) :: ext,
                by simp⟩, ?_⟩
              · rw [processRows_cons_some hli, if_pos hval, if_neg hcT,
                  if_pos hcS, if_neg hlen]
                exact htrue
              · intro k hk
                by_cases hkk : rows0.length + 1 ≤ k.val
                · exact hineq k (le_trans (le_of_eq (by simp)) hkk)
                · have hkv : k.val = rows0.length := by omega
                  have hlen1 : (rows0 ++
                      [(⟨item, fr.unit_price, fr.qty⟩ : RowItem)]).length =
                      rows0.length + 1 := by simp
                  have hklt : k.val <
                      (rows0 ++
                        [(⟨item, fr.unit_price, fr.qty⟩ : RowItem)]).length := by
                    omega
                  have hget : (((rows0 ++
                      [(⟨item, fr.unit_price, fr.qty⟩ : RowItem)]) ++
                        ext).get k) =
                      (⟨item, fr.unit_price, fr.qty⟩ : RowItem) := by
                    rw [List.get_eq_getElem,
                      List.getElem_append_left hklt,
                      List.getElem_append_right (show rows0.length ≤ k.val by
                        omega)]
                    simp [hkv]
                  have htake : (((rows0 ++
                      [(⟨item, fr.unit_price, fr.qty⟩ : RowItem)]) ++
                        ext).take (k.val + 1)) =
                      rows0 ++ [(⟨item, fr.unit_price, fr.qty⟩ : RowItem)] := by
                    rw [hkv, show rows0.length + 1 =
                      (rows0 ++
                        [(⟨item, fr.unit_price, fr.qty⟩ : RowItem)]).length by
                          simp]
                    exact List.take_left _ _
                  rw [hget, htake]
                  simpa [qtySum_append] using hnew
        · rw [if_neg hval] at h
          by_cases hlen : rows0.length ≥ 15
          · rw [if_pos hlen] at h
            cases h
            exact ⟨by rw [processRows_cons_some hli, if_neg hval, if_pos hlen],
              ⟨[], by simp⟩, fun k hk => absurd k.isLt (not_lt.mpr hk)⟩
          · rw [if_neg hlen] at h
            obtain ⟨htrue, hext, hineq⟩ := ih rows0 pending rows hinv h
            exact ⟨by
              rw [processRows_cons_some hli, if_neg hval, if_neg hlen]
              exact htrue, hext, hineq⟩

/-- C3: for a POST to the unified invoice route whose resolved form kind is
sales, with the allow-negative-sales setting disabled, if any candidate row
drives the running in-memory projection of its item's stock — accumulated
across multiple rows naming the same item within the one submission — below
`-1e-6`, then the submission is rejected: no success outcome is possible and
the database is returned unchanged, so no invoice or line row is created and
no stock or balance moves. -/
theorem C3_sales_overdraw_rejected (db : DBState) (u : User)
    (args_kind : Option String) (jref : String) (form : InvoiceForm)
    (hnd : (db.entities.map (fun e => e.id)).Nodup)
    (hfk : formKind (kindResolved args_kind) form.invoice_kind = "sales")
    (hov : overdrawAt db (candidateRows db "sales" form)) :
    (∀ n, (unified_invoice_post db u args_kind jref form false).1 ≠
      .success n) ∧
    (unified_invoice_post db u args_kind jref form false).2 = db := by
  have herr : ∀ rows, processRows db "sales" false form.rows [] [] ≠
      .ok rows := by
    intro rows hok
    obtain ⟨htrue, -, hineq⟩ := processRows_sales_ok hnd form.rows [] [] rows
      (fun i => by simp [lookupPending, qtySum, List.find?]) hok
    have hcand : candidateRows db "sales" form = rows := by
      rw [candidateRows, htrue]
    rw [hcand] at hov
    obtain ⟨k, hk⟩ := hov
    exact absurd hk (not_lt.mpr (hineq k (Nat.zero_le _)))
  by_cases hperm : ensure_permission_allows u (kindResolved args_kind)
  · simp only [unified_invoice_post, hperm, not_true_eq_false, if_false]
    rcases hp : resolvePerson db form.person_token form.person_code
        with _ | person
    · simp [hp]
    · rcases hr : processRows db (formKind (kindResolved args_kind)
          form.invoice_kind) false form.rows [] [] with tag | rows
      · simp [hp, hr]
      · rw [hfk] at hr
        exact absurd hr (herr rows)
  · simp only [unified_invoice_post, eq_false_of_ne_true hperm,
      not_false_eq_true, if_true]
    simp

/-- Witness for C3: the fixture database holds five gadgets; a sales
submission of fifteen drives the projection to `-10` and is rejected with
the database untouched. -/
theorem C3_sales_overdraw_rejected_witness :
    (witnessDB.entities.map (fun e => e.id)).Nodup ∧
    formKind (kindResolved none) witnessOverdrawForm.invoice_kind = "sales" ∧
    overdrawAt witnessDB (candidateRows witnessDB "sales"
      witnessOverdrawForm) ∧
    (∀ n, (unified_invoice_post witnessDB witnessAdmin none "INV-9"
      witnessOverdrawForm false).1 ≠ .success n) ∧
    (unified_invoice_post witnessDB witnessAdmin none "INV-9"
      witnessOverdrawForm false).2 = witnessDB := by
  have hl : lookupRowItem witnessDB "2" "" =
      some ⟨2, "item", "200", "Gadget", 5, 0⟩ := by decide
  have hrows3 : processRows witnessDB "sales" true
      [⟨"2", "", 100, 15⟩] [] [] =
      .ok [⟨⟨2, "item", "200", "Gadget", 5, 0⟩, 100, 15⟩] := by
    rw [processRows, hl]
    norm_num [processRows]
  have hcand3 : candidateRows witnessDB "sales" witnessOverdrawForm =
      [⟨⟨2, "item", "200", "Gadget", 5, 0⟩, 100, 15⟩] := by
    rw [candidateRows,
      show witnessOverdrawForm.rows = [⟨"2", "", 100, 15⟩] from rfl, hrows3]
  have hov3 : overdrawAt witnessDB
      (candidateRows witnessDB "sales" witnessOverdrawForm) := by
    rw [hcand3]
    refine ⟨⟨0, by norm_num⟩, ?_⟩
    norm_num +decide [stockOf, findEntity, qtySum, stockEps, witnessDB,
      List.find?, List.take, show ((1 : Nat) == 2) = false from rfl]
  have h := C3_sales_overdraw_rejected witnessDB witnessAdmin none "INV-9"
    witnessOverdrawForm (by decide) (by decide) hov3
  exact ⟨by decide, by decide, hov3, h.1, h.2⟩

end HesabPak